import Mathlib

/-!
# Verification of the flytekit annotated-workflow tracing compiler

Shallow embedding of `src/flytekit/annotated/workflow.py`: the `Workflow`
entity, its `compile` pass, the three-way execution dispatcher in
`Workflow.__call__`, the node-linking algorithm `_create_and_link_node`,
the local-execution output resolver `_workflow_fn_outputs_to_promise`, and
the registration exporter `get_registerable_entity`.

Collaborator classes that live outside the embedded file
(`Promise`, `Node`, `FlyteContext`, the type engine, and the binding
constructor `binding_from_python_std`) are modelled from the specification;
each such definition carries a doc comment starting `Modelled from the
spec:` naming what is missing.

Native Python values are modelled as natural numbers; the wire-literal
conversion subsystem (out of scope per the spec) is modelled as the
identity wrapping/unwrapping of that number.
-/

namespace Flytekit

/-- Modelled from the spec: a wire-format literal produced by the external
native/wire conversion capability (§6).  The conversion subsystem is out of
scope, so a literal simply wraps the native value. -/
structure Literal where
  val : Nat
deriving Repr, DecidableEq

/-- Modelled from the spec: `flytekit.common.constants.GLOBAL_INPUT_NODE_ID`
(not under `src/`), the node id used by the global-input placeholder
references ("the start node"). -/
def GLOBAL_INPUT_NODE_ID : String := ""

/-- Modelled from the spec: the payload of a `Promise`
(flytekit/annotated/promise.py, not under `src/`): "either a concrete
literal value or a reference to output `var` of node `N`, never both" (§3). -/
inductive PromiseVal where
  | lit (l : Literal)
  | ref (nodeId : String) (outVar : String)
deriving Repr, DecidableEq

/-- Modelled from the spec: the `Promise` deferred-value primitive
(flytekit/annotated/promise.py, not under `src/`): a variable name plus
exactly one of a literal or a node-output reference (§3). -/
structure Promise where
  var : String
  val : PromiseVal
deriving Repr, DecidableEq

/-- Modelled from the spec: `Promise.with_var` — "recasts the Promises
provided by the outputs of the workflow's tasks into the correct output
names of the workflow itself" (comment in `_workflow_fn_outputs_to_promise`);
renames the promise, keeping its payload. -/
def Promise.with_var (p : Promise) (newVar : String) : Promise :=
  ⟨newVar, p.val⟩

/-- A Python value as seen by the workflow machinery: a concrete native
value, a `Promise`, a global-input placeholder reference
(`_type_models.OutputReference(GLOBAL_INPUT_NODE_ID, k)` built by
`_construct_input_promises`), an unresolved conditional section
(`ConditionalSection`), Python `None`, or a tuple. -/
inductive Val where
  | native (n : Nat)
  | promise (p : Promise)
  | globalRef (v : String)
  | condSection
  | pynone
  | tup (xs : List Val)

/-- Python `isinstance(v, Promise)`. -/
def Val.isPromise : Val → Bool
  | .promise _ => true
  | _ => false

/-- Python `v is None`. -/
def Val.isNone : Val → Bool
  | .pynone => true
  | _ => false

/-- Modelled from the spec: `TypeEngine.to_literal`
(flytekit/annotated/type_engine.py, not under `src/`) — "a bidirectional
converter nativeValue × declaredType → literal" (§6).  Only concrete native
values convert; anything else is a conversion failure. -/
def to_literal : Val → Option Literal
  | .native n => some (Literal.mk n)
  | _ => none

/-- Modelled from the spec: `TypeEngine.to_python_value`
(flytekit/annotated/type_engine.py, not under `src/`) — the inverse
direction `literal × declaredType → nativeValue` (§6). -/
def to_python_value (l : Literal) : Nat := l.val

/-- Modelled from the spec: binding-data payload — "either a literal, a
Promise-reference, or a recursively nested collection of Bindings (for
aggregate types)" (§3). -/
inductive BindingData where
  | lit (l : Literal)
  | ref (nodeId : String) (outVar : String)
  | collection (items : List BindingData)

/-- A `Binding`: target variable name plus the binding-data payload (§3). -/
structure Binding where
  var : String
  data : BindingData

/-- Errors raised by the embedded code.  Each constructor corresponds to one
`raise` site (or, for the spec-modelled collaborators, one failure mode the
spec names). -/
inductive WfError where
  /-- Raised as `AssertionError("something returned from wf but shouldn't have outputs")` -/
  | zeroOutputsButReturned
  /-- Raised as `AssertionError("The Workflow specification indicates only one return value, received n")` -/
  | singleOutputArity (received : Nat)
  /-- Raised as `AssertionError` for a non-tuple / wrong-length return with multiple
  declared outputs (`_workflow_fn_outputs_to_promise`). -/
  | multiReturnMismatch
  /-- Raised as `AssertionError("The Workflow specification indicates multiple return values, received only one")` -/
  | multiOutputNotTuple
  /-- Raised as `Exception("Length mismatch k vs n")` in `compile`. -/
  | multiOutputLenMismatch (expected received : Nat)
  /-- Raised as `AssertionError("A Conditional block (if-else) should always end with an else_() clause")` -/
  | condInOutput
  /-- Modelled from the spec: "an unresolved branch construct reaching
  BindingResolver or NodeBuilder is a usage error" (§6). -/
  | unresolvedBranch
  /-- Modelled from the spec: failure of the external native-to-wire
  conversion on a non-convertible value. -/
  | conversionError
  /-- Raised as `FlyteAssertion("Input was not specified for: k ...")` -/
  | inputNotSpecified (k : String)
  /-- Raised as `FlyteAssertion("Too many inputs were specified for the interface...")` -/
  | tooManyInputs
  /-- Raised as `AssertionError("Only Keyword Arguments are supported for Workflow executions")` -/
  | positionalArgs
  /-- Raised as `ValueError("Received unexpected keyword argument k")` -/
  | unexpectedKwarg (k : String)
  /-- Raised as `ValueError("Received a promise for a workflow call, when expecting a native value for k")` -/
  | promiseForNative (k : String)
  /-- Raised as `ValueError("expected outputs and actual outputs do not match")` -/
  | outputsMismatch
  /-- Raised as `Exception("should be promises")` -/
  | shouldBePromises
  /-- A Python `TypeError`-style failure (e.g. `len` of a non-sequence,
  attribute access on the wrong type). -/
  | typeError
deriving Repr, DecidableEq

/-- Modelled from the spec: `binding_from_python_std`
(flytekit/annotated/promise.py, not under `src/`).  Per §3 a binding
payload is a literal, a Promise-reference, or a recursively nested
collection; per §4.3/§6 an unresolved branch construct reaching the
binding resolver is fatal; a concrete value is converted via the external
native-to-wire converter (§4.4 step 2).  A global-input placeholder
reference binds as a reference to the global input node. -/
def bindingDataOfVal : Val → Except WfError BindingData
  | .native n => Except.ok (BindingData.lit (Literal.mk n))
  | .promise p =>
    match p.val with
    | .lit l => Except.ok (BindingData.lit l)
    | .ref nid ovar => Except.ok (BindingData.ref nid ovar)
  | .globalRef v => Except.ok (BindingData.ref GLOBAL_INPUT_NODE_ID v)
  | .condSection => Except.error WfError.unresolvedBranch
  | .pynone => Except.error WfError.conversionError
  | .tup xs => (bindingDataOfList xs).map BindingData.collection
where
  bindingDataOfList : List Val → Except WfError (List BindingData)
    | [] => Except.ok []
    | x :: xs => do
      let d ← bindingDataOfVal x
      let ds ← bindingDataOfList xs
      Except.ok (d :: ds)

/-- Modelled from the spec: `binding_from_python_std` wraps the converted
binding data with the target variable name. -/
def binding_from_python_std (varName : String) (v : Val) : Except WfError Binding :=
  (bindingDataOfVal v).map (fun d => Binding.mk varName d)

/-- A graph `Node` (see §3): identifier, metadata display name (the owning
entity's name, from `NodeMetadata(self._name, ...)`), the name of the
entity the node represents (`flyte_entity`), input bindings, and upstream
node references. -/
structure Node where
  id : String
  metadata_name : String
  flyte_entity_name : String
  bindings : List Binding
  upstream_nodes : List String

/-- Modelled from the spec: the `Node` constructor
(flytekit/annotated/node.py, not under `src/`).  Per §3 a Node holds a
"set of upstream Node references ... never hand-maintained, always
derived": the constructor records the distinct upstream references. -/
def Node.make (id mname ename : String) (bindings : List Binding)
    (upstream : List String) : Node :=
  ⟨id, mname, ename, bindings, upstream.dedup⟩

/-- The ordered, append-only node list accumulated by the active
compilation context (`ctx.compilation_state.nodes`). -/
structure CompilationState where
  nodes : List Node

/-- Embedding of `ExecutionState.Mode` (flytekit/annotated/context_manager.py): only the
`LOCAL_WORKFLOW_EXECUTION` mode is distinguished by the dispatcher. -/
inductive ExecMode where
  | local_workflow_execution
  | other
deriving Repr, DecidableEq

/-- Modelled from the spec: the ambient `FlyteContext`
(flytekit/annotated/context_manager.py, not under `src/`): an optional
active compilation (tracing) state, an optional execution state with its
mode, and the ambient registration settings (§4.2, §4.6, §4.7). -/
structure FlyteContext where
  compilation_state : Option CompilationState
  execution_state : Option ExecMode
  registration_settings_project : String
  registration_settings_domain : String
  registration_settings_version : String

/-- The immutable part of a `Workflow`: its name and its declared input and
output interfaces (ordered name lists; the type maps are collapsed since the
type-conversion subsystem is modelled as identity). -/
structure WorkflowDef where
  name : String
  inputs : List String
  outputs : List String

/-- The traced workflow function (`self._workflow_function`): given the
keyword arguments and the ambient context, it returns the (possibly
updated) context and its Python return value.  Under tracing, node creation
by the body's sub-calls shows up in the returned context's compilation
state. -/
def WfBody : Type :=
  List (String × Val) → FlyteContext → FlyteContext × Val

/-- Python `dict.update`: keys of `base` keep their position (overridden
values replace them); keys only in `upd` are appended in order. -/
def dictUpdate (base upd : List (String × Val)) : List (String × Val) :=
  (base.map fun kv =>
    match upd.lookup kv.1 with
    | some v => (kv.1, v)
    | none => kv) ++
  upd.filter (fun kv => (base.lookup kv.1).isNone)

/-- Embedding of `Workflow._construct_input_promises`: one global-input placeholder
reference per declared input, bound to the global input node id. -/
def construct_input_promises (wf : WorkflowDef) : List (String × Val) :=
  wf.inputs.map fun k => (k, Val.globalRef k)

/-- A Python `for` loop that builds a list and propagates the first raised
error (the effect of every element-wise loop in the embedded file). -/
def mapExcept {α β : Type} (f : α → Except WfError β) : List α → Except WfError (List β)
  | [] => Except.ok []
  | x :: xs => do
    let b ← f x
    let bs ← mapExcept f xs
    Except.ok (b :: bs)

/-- Embedding of `_workflow_fn_outputs_to_promise` (module-level function, lines 31-63):
checks the returned value's shape against the declared output count and
recasts each returned value into a `Promise` named after the corresponding
declared output. -/
def _workflow_fn_outputs_to_promise (native_outputs : List String) (outputs : Val) :
    Except WfError (Option (List Promise)) :=
  if native_outputs.length = 0 then
    -- `if outputs is not None: raise`; else `return None`
    if outputs.isNone then Except.ok none
    else Except.error WfError.zeroOutputsButReturned
  else do
    let outsList : List Val ←
      if native_outputs.length = 1 then
        match outputs with
        | Val.tup xs =>
          if xs.length ≠ 1 then Except.error (WfError.singleOutputArity xs.length)
          else Except.ok xs
        | v => Except.ok [v]        -- `outputs = (outputs,)`
      else
        -- `if not isinstance(outputs, tuple) or len(native_outputs) != len(outputs)`
        match outputs with
        | Val.tup xs =>
          if native_outputs.length ≠ xs.length then Except.error WfError.multiReturnMismatch
          else Except.ok xs
        | _ => Except.error WfError.multiReturnMismatch
    let return_vals ← mapExcept (fun kv =>
      match kv.2 with
      | Val.promise p => Except.ok (p.with_var kv.1)
      | v =>
        match to_literal v with
        | some l => Except.ok (Promise.mk kv.1 (PromiseVal.lit l))
        | none => Except.error WfError.conversionError) (native_outputs.zip outsList)
    Except.ok (some return_vals)

/-- Modelled from the spec: `create_task_output`
(flytekit/annotated/promise.py, not under `src/`): wraps the produced
promises "into the calling convention the workflow body expects (a single
value if exactly one output, else an ordered tuple)" (§4.4 step 6); no
promises (zero declared outputs) yields Python `None`. -/
def create_task_output : Option (List Promise) → Val
  | none => Val.pynone
  | some [p] => Val.promise p
  | some ps => Val.tup (ps.map Val.promise)

/-- Embedding of `Workflow._local_execute` (lines 169-192): coerce every non-`Promise`
keyword argument into a literal-valued `Promise`, run the workflow function
body, then resolve its return value into named output promises. -/
def Workflow.localExecute (wf : WorkflowDef) (body : WfBody) (ctx : FlyteContext)
    (kwargs : List (String × Val)) : Except WfError (FlyteContext × Val) := do
  let kwargs' ← mapExcept (fun kv =>
    match kv.2 with
    | Val.promise _ => Except.ok kv
    | v =>
      match to_literal v with
      | some l => Except.ok (kv.1, Val.promise (Promise.mk kv.1 (PromiseVal.lit l)))
      | none => Except.error WfError.conversionError) kwargs
  let (ctx', function_outputs) := body kwargs' ctx
  let promises ← _workflow_fn_outputs_to_promise wf.outputs function_outputs
  Except.ok (ctx', create_task_output promises)

/-- Lexicographic (codepoint) order on character lists, as a computable
boolean: the order Python's `sorted` uses for `str` keys. -/
def strLtList : List Char → List Char → Bool
  | _, [] => false
  | [], _ :: _ => true
  | a :: as, b :: bs =>
    if a < b then true
    else if b < a then false
    else strLtList as bs

/-- Lexicographic strict order on strings (Python `<` on `str`). -/
def strLt (a b : String) : Bool := strLtList a.data b.data

/-- Lexicographic order on strings (Python `<=` on `str`), the comparison
key of `sorted(...)` in `_create_and_link_node`. -/
def strLe (a b : String) : Bool := ! strLt b a

/-- One iteration of the sorted-input loop of `_create_and_link_node`
(lines 260-266): a declared input absent from the keyword arguments is
fatal; otherwise its value is converted to a binding. -/
def linkInputBinding (kwargs : List (String × Val)) (k : String) :
    Except WfError Binding :=
  match kwargs.lookup k with
  | none => Except.error (WfError.inputNotSpecified k)
  | some v => binding_from_python_std k v

/-- Embedding of `extra_inputs = used_inputs ^ set(kwargs.keys())` (line 268): the
symmetric difference between the declared input names (all "used" once the
loop has completed) and the supplied keyword-argument names. -/
def linkExtraInputs (wf : WorkflowDef) (kwargs : List (String × Val)) :
    List String :=
  (kwargs.map Prod.fst).filter (fun k => ¬ wf.inputs.contains k) ++
  wf.inputs.filter (fun k => ¬ (kwargs.map Prod.fst).contains k)

/-- Embedding of `upstream_nodes = [v.ref.sdk_node for v in kwargs.values() if
isinstance(v, Promise)]` (line 276), over the keyword arguments in call
order.  Modelled from the spec for the literal-valued case: a Promise
carrying a concrete literal references no node (§3), so only node-output
references contribute. -/
def linkUpstream (kwargs : List (String × Val)) : List String :=
  kwargs.filterMap fun kv =>
    match kv.2 with
    | Val.promise p =>
      match p.val with
      | PromiseVal.ref nid _ => some nid
      | PromiseVal.lit _ => none
    | _ => none

/-- The `Node` built by `_create_and_link_node` (lines 278-284): id
`"node-<n>"` with `n` the count of nodes already recorded, metadata named
after the workflow, bindings sorted by variable name, upstream references
derived from the promise-valued arguments. -/
def linkNode (wf : WorkflowDef) (st : CompilationState)
    (kwargs : List (String × Val)) (bindings : List Binding) : Node :=
  Node.make ("node-" ++ toString st.nodes.length) wf.name wf.name
    (bindings.insertionSort (fun a b => strLe a.var b.var = true))
    (linkUpstream kwargs)

/-- The output promises of `_create_and_link_node` (lines 290-296): one per
declared output, each referencing the new node under the output's name. -/
def linkNodeOutputs (wf : WorkflowDef) (node : Node) : List Promise :=
  wf.outputs.map fun o => Promise.mk o (PromiseVal.ref node.id o)

/-- Embedding of `Workflow._create_and_link_node` (lines 250-298): validate the keyword
arguments against the declared input interface, build one binding per
declared input (iterated in sorted name order), derive the upstream nodes
from the `Promise`-valued arguments, append a freshly numbered `Node` to the
active compilation state, and return one output promise per declared
output. -/
def Workflow.createAndLinkNode (wf : WorkflowDef) (ctx : FlyteContext)
    (kwargs : List (String × Val)) : Except WfError (FlyteContext × Val) := do
  match ctx.compilation_state with
  | none => Except.error WfError.typeError   -- attribute access on `None`
  | some comp => do
    -- `for k in sorted(self.interface.inputs): ...`
    let bindings ← mapExcept (linkInputBinding kwargs)
      (wf.inputs.insertionSort (fun a b => strLe a b = true))
    if (linkExtraInputs wf kwargs).length > 0 then
      Except.error WfError.tooManyInputs
    else do
      let node := linkNode wf comp kwargs bindings
      let ctx' := { ctx with compilation_state := some ⟨comp.nodes ++ [node]⟩ }
      Except.ok (ctx', create_task_output (some (linkNodeOutputs wf node)))

/-- The context after `_create_and_link_node` has appended its node to the
compilation state whose node list was `st.nodes` (line 285). -/
def pushNode (ctx : FlyteContext) (st : CompilationState) (node : Node) :
    FlyteContext :=
  { ctx with compilation_state := some ⟨st.nodes ++ [node]⟩ }

/-- What `compile` returns to its caller: `None` for zero declared outputs,
the sole binding for one, the tuple of bindings otherwise. -/
inductive CompileRet where
  | pynone
  | single (b : Binding)
  | tuple (bs : List Binding)

/-- The first half of `Workflow.compile`: build the default global-input
placeholder bindings, override them with any supplied kwargs, and run the
workflow function body under a fresh compilation context. -/
def Workflow.traceBody (wf : WorkflowDef) (body : WfBody)
    (kwargs : List (String × Val)) (ctx : FlyteContext) : FlyteContext × Val :=
  body (dictUpdate (construct_input_promises wf) kwargs)
    { ctx with compilation_state := some ⟨[]⟩ }

/-- The traced return value of the workflow function inside `compile`. -/
def Workflow.traceOutput (wf : WorkflowDef) (body : WfBody)
    (kwargs : List (String × Val)) (ctx : FlyteContext) : Val :=
  (Workflow.traceBody wf body kwargs ctx).2

/-- The binding element of the multiple-output loop of `compile`
(lines 151-158): an unresolved conditional section is fatal, otherwise the
value is converted to a binding named after the declared output. -/
def compileMultiBinding (ov : String × Val) : Except WfError Binding :=
  match ov.2 with
  | Val.condSection => Except.error WfError.condInOutput
  | v => binding_from_python_std ov.1 v

/-- The shape check of the single-output branch of `compile` (lines
137-139): `if isinstance(workflow_outputs, tuple) and len(workflow_outputs)
!= 1: raise`. -/
def singleOutputCheck (workflow_outputs : Val) : Except WfError Unit :=
  match workflow_outputs with
  | Val.tup xs =>
    if xs.length ≠ 1 then Except.error (WfError.singleOutputArity xs.length)
    else Except.ok ()
  | _ => Except.ok ()

/-- The output-binding resolution of `Workflow.compile` (lines 130-158):
the arity rules against the declared output names, producing the output
bindings and the value `compile` returns to its caller (lines 163-167). -/
def compileBindings (output_names : List String) (workflow_outputs : Val) :
    Except WfError (List Binding × CompileRet) :=
  match output_names with
  | [] => Except.ok ([], CompileRet.pynone)
  | [o] => do
    let _ ← singleOutputCheck workflow_outputs
    let b ← binding_from_python_std o workflow_outputs
    Except.ok ([b], CompileRet.single b)
  | o1 :: o2 :: rest =>
    match workflow_outputs with
    | Val.tup xs =>
      if (o1 :: o2 :: rest).length ≠ xs.length then
        Except.error (WfError.multiOutputLenMismatch (o1 :: o2 :: rest).length xs.length)
      else do
        let bindings ← mapExcept compileMultiBinding ((o1 :: o2 :: rest).zip xs)
        Except.ok (bindings, CompileRet.tuple bindings)
    | _ => Except.error WfError.multiOutputNotTuple

/-- The nodes accumulated by the fresh compilation context during the
trace (`all_nodes`, lines 121-128). -/
def Workflow.traceNodes (wf : WorkflowDef) (body : WfBody)
    (kwargs : List (String × Val)) (ctx : FlyteContext) : List Node :=
  (((Workflow.traceBody wf body kwargs ctx).1.compilation_state).map
    CompilationState.nodes).getD []

/-- Embedding of `Workflow.compile` (lines 115-167): trace the function body under a
fresh compilation context, collect the accumulated nodes, and resolve the
traced return value into the workflow's output bindings under the arity
rules; returns the collected nodes, the output bindings, and the value
`compile` hands back to its caller. -/
def Workflow.compile (wf : WorkflowDef) (body : WfBody)
    (kwargs : List (String × Val)) (ctx : FlyteContext) :
    Except WfError (List Node × List Binding × CompileRet) := do
  let all_nodes := Workflow.traceNodes wf body kwargs ctx
  let br ← compileBindings wf.outputs (Workflow.traceOutput wf body kwargs ctx)
  Except.ok (all_nodes, br.1, br.2)

/-- The sanity-check loop of the top-level (local-root) branch of
`Workflow.__call__` (lines 218-222): walk the keyword arguments in order;
an undeclared name raises `ValueError`, as does a `Promise` value. -/
def checkLocalRootKwargs (wf : WorkflowDef) : List (String × Val) → Except WfError Unit
  | [] => Except.ok ()
  | (k, v) :: rest =>
    if ¬ wf.inputs.contains k then Except.error (WfError.unexpectedKwarg k)
    else if v.isPromise then Except.error (WfError.promiseForNative k)
    else checkLocalRootKwargs wf rest

/-- Python `len(result)`: defined for tuples, a `TypeError` otherwise. -/
def pyLen : Val → Except WfError Nat
  | Val.tup xs => Except.ok xs.length
  | _ => Except.error WfError.typeError

/-- The output-count guard of the local-root branch (lines 227-232):
`(expected == 0 and result is None) or (expected > 1 and len(result) ==
expected) or (expected == 1 and result is not None)`, with Python's
short-circuit evaluation of `len(result)`. -/
def localRootGuard (expected : Nat) (result : Val) : Except WfError Bool :=
  if expected = 0 ∧ result.isNone then Except.ok true
  else if expected > 1 then do
    let n ← pyLen result
    if n = expected then Except.ok true
    else Except.ok (expected = 1 ∧ ¬ result.isNone)
  else Except.ok (expected = 1 ∧ ¬ result.isNone)

/-- Embedding of `TypeEngine.to_python_value(ctx, promise.val, ...)` applied to one
element of the result tuple (lines 242-245): reading `.val` of anything but
a literal-carrying `Promise` fails. -/
def promiseToNative (v : Val) : Except WfError Nat :=
  match v with
  | Val.promise p =>
    match p.val with
    | PromiseVal.lit l => Except.ok (to_python_value l)
    | PromiseVal.ref _ _ => Except.error WfError.typeError
  | _ => Except.error WfError.typeError

/-- The result conversion of the local-root branch (lines 233-246): `None`
passes through; a single `Promise` is converted back to a native value; a
tuple has its first element checked to be a `Promise` and then every
element converted back to a native value; reaching the end of the function
body without returning raises the final `ValueError` (line 248). -/
def localRootConvert (result : Val) : Except WfError Val :=
  match result with
  | Val.pynone => Except.ok Val.pynone
  | Val.promise p =>
    match p.val with
    | PromiseVal.lit l => Except.ok (Val.native (to_python_value l))
    | PromiseVal.ref _ _ => Except.error WfError.typeError
  | Val.tup [] => Except.error WfError.outputsMismatch
  | Val.tup (x :: xs) =>
    if ¬ x.isPromise then Except.error WfError.shouldBePromises
    else do
      let ns ← mapExcept promiseToNative (x :: xs)
      Except.ok (Val.tup (ns.map Val.native))
  | _ => Except.error WfError.typeError   -- `for prom in result` over a non-sequence

/-- The top-level (local-root) branch of `Workflow.__call__` (lines
213-248): validate the keyword arguments, run a fresh local execution under
the local-execution marker, then check the result count and convert the
output promises back to native values. -/
def localRootBranch (wf : WorkflowDef) (body : WfBody)
    (kwargs : List (String × Val)) (ctx : FlyteContext) :
    Except WfError (FlyteContext × Val) := do
  let _ ← checkLocalRootKwargs wf kwargs
  let execCtx := { ctx with execution_state := some ExecMode.local_workflow_execution }
  let (_, result) ← Workflow.localExecute wf body execCtx kwargs
  let expected := wf.outputs.length
  let g ← localRootGuard expected result
  if g then do
    let v ← localRootConvert result
    Except.ok (ctx, v)
  else Except.error WfError.outputsMismatch

/-- Embedding of `Workflow.__call__` (lines 194-248): reject positional arguments, then
dispatch on the ambient context — an active compilation state links a node
(Link mode); an active local-workflow execution state continues the local
execution (Local-nested mode); otherwise validate the arguments, run a
fresh local execution, and convert the resulting promises back to native
values (Local-root mode). -/
def Workflow.call (wf : WorkflowDef) (body : WfBody) (args : List Val)
    (kwargs : List (String × Val)) (ctx : FlyteContext) :
    Except WfError (FlyteContext × Val) :=
  if args.length > 0 then Except.error WfError.positionalArgs
  else if ctx.compilation_state.isSome then
    Workflow.createAndLinkNode wf ctx kwargs
  else if ctx.execution_state = some ExecMode.local_workflow_execution then
    Workflow.localExecute wf body ctx kwargs
  else localRootBranch wf body kwargs ctx

/-- The identity-stamped registerable workflow (`SdkWorkflow`): the exported
nodes, the identifier fields, and the output bindings (§4.7). -/
structure SdkWorkflow where
  project : String
  domain : String
  name : String
  version : String
  nodes : List Node
  output_bindings : List Binding

/-- Modelled from the spec: `Node.get_registerable_entity`
(flytekit/annotated/node.py, not under `src/`) — "nodes translated to
their own exportable forms" (§4.7); the translation is modelled as the
identity on the embedded node record. -/
def Node.exportNode (n : Node) : Node := n

/-- The mutable per-instance state of a `Workflow`: the one-time compile
fill (`_nodes`, `_output_bindings`) and the one-time export-cache fill
(`_registerable_entity`). -/
structure WorkflowState where
  name : String
  nodes : Option (List Node)
  output_bindings : Option (List Binding)
  registerable_entity : Option SdkWorkflow

/-- Embedding of `Workflow.get_registerable_entity` (lines 300-326): return the cached
entity if present; otherwise build an `SdkWorkflow` stamped with the
ambient registration settings (project, domain, version) and the workflow
name, cache it, and return it.  Iterating `self._nodes` before compile is a
Python `TypeError`. -/
def Workflow.get_registerable_entity (s : WorkflowState) (ctx : FlyteContext) :
    Except WfError (WorkflowState × SdkWorkflow) :=
  match s.registerable_entity with
  | some e => Except.ok (s, e)
  | none =>
    match s.nodes with
    | none => Except.error WfError.typeError
    | some ns =>
      let e : SdkWorkflow :=
        { project := ctx.registration_settings_project
          domain := ctx.registration_settings_domain
          name := s.name
          version := ctx.registration_settings_version
          nodes := ns.map Node.exportNode
          output_bindings := s.output_bindings.getD [] }
      Except.ok ({ s with registerable_entity := some e }, e)

/-! ## Shape predicates and concrete fixtures used by the theorems -/

/-- An "ordinary" returned value: a concrete native value, a promise, or a
global-input placeholder reference — neither `None` nor an unresolved
branch construct nor an aggregate. -/
def Val.atomOk : Val → Bool
  | .native _ => true
  | .promise _ => true
  | .globalRef _ => true
  | _ => false

/-- A returned value whose binding conversion is well defined: an ordinary
value, or a tuple of ordinary values. -/
def Val.goodValue : Val → Bool
  | .tup xs => xs.all Val.atomOk
  | v => v.atomOk

/-- The arity law's shape condition for `k ≥ 1` declared outputs: an
aggregate must have length exactly `k`; a bare (non-aggregate) value is
accepted exactly when `k = 1`. -/
def shapeOk (k : Nat) : Val → Bool
  | Val.tup xs => xs.length == k
  | _ => k == 1

/-- A value made only of concrete native data (what a top-level call is
allowed to hand back to the caller): `None`, a native value, or a tuple of
native values. -/
def Val.nativeOnly : Val → Bool
  | .pynone => true
  | .native _ => true
  | .tup xs => xs.all fun x =>
      match x with
      | .native _ => true
      | _ => false
  | _ => false

/-- A top-level context: no compilation state, no execution state. -/
def ctxPlain : FlyteContext := ⟨none, none, "proj", "dom", "ver"⟩

/-- A context with an empty active compilation state. -/
def ctxComp0 : FlyteContext := ⟨some ⟨[]⟩, none, "proj", "dom", "ver"⟩

/-- A zero-output workflow. -/
def wfK0 : WorkflowDef := ⟨"mod.wf0", [], []⟩

/-- A one-input, one-output workflow. -/
def wfK1 : WorkflowDef := ⟨"mod.wf1", ["x"], ["o"]⟩

/-- A two-input, two-output workflow. -/
def wfK2 : WorkflowDef := ⟨"mod.wf2", ["a", "b"], ["o1", "o2"]⟩

/-- A workflow body that ignores its arguments and returns a fixed value
without touching the context. -/
def bodyConstV (v : Val) : WfBody := fun _ c => (c, v)

/-- A workflow body that returns its input `x` unchanged. -/
def bodyEcho : WfBody := fun kw c => (c, (kw.lookup "x").getD Val.pynone)

/-- A freshly compiled, not-yet-exported workflow state. -/
def wsFresh : WorkflowState := ⟨"mod.wf1", some [], some [], none⟩

/-- The entity the first export of `wsFresh` under `ctxPlain` builds. -/
def sdkFirst : SdkWorkflow := ⟨"proj", "dom", "mod.wf1", "ver", [], []⟩

/-- The workflow state after the first export of `wsFresh`. -/
def wsCached : WorkflowState := ⟨"mod.wf1", some [], some [], some sdkFirst⟩

/-- A context whose registration settings differ from `ctxPlain`. -/
def ctxOther : FlyteContext := ⟨none, none, "proj2", "dom2", "ver2"⟩

/-- A sub-workflow body used only as a stand-in for the inner entity. -/
def bodyInner : WfBody := bodyConstV Val.pynone

/-- A traced outer body: call the sub-workflow `wfK1` with a fixed concrete
argument (linking one node when a compilation context is active) and return
its output promise. -/
def bodyLinkOne : WfBody := fun _ c =>
  match Workflow.call wfK1 bodyInner [] [("x", Val.native 3)] c with
  | Except.ok r => r
  | Except.error _ => (c, Val.pynone)

/-- A context carrying leftover state: a stale compilation state, an
execution state, and different registration settings. -/
def ctxStale : FlyteContext :=
  ⟨some ⟨[Node.make "node-9" "stale" "stale" [] []]⟩, some ExecMode.other,
    "p2", "d2", "v2"⟩

/-- The node recorded by linking `wfK2` with concrete arguments under an
empty compilation context. -/
def nodeK2 : Node :=
  ⟨"node-0", "mod.wf2", "mod.wf2",
    [⟨"a", BindingData.lit ⟨1⟩⟩, ⟨"b", BindingData.lit ⟨2⟩⟩], []⟩

/-- The context after that linking call. -/
def ctxAfterK2 : FlyteContext := ⟨some ⟨[nodeK2]⟩, none, "proj", "dom", "ver"⟩

/-- The value that linking call returns. -/
def valK2 : Val := Val.tup
  [Val.promise ⟨"o1", PromiseVal.ref "node-0" "o1"⟩,
   Val.promise ⟨"o2", PromiseVal.ref "node-0" "o2"⟩]

/-- A promise referencing output `"o"` of an earlier node `"node-7"`. -/
def promN7 : Promise := ⟨"o", PromiseVal.ref "node-7" "o"⟩

/-- The node built by linking `wfK2` with `a` bound to that promise and `b`
concrete. -/
def nodeLinkW : Node :=
  ⟨"node-0", "mod.wf2", "mod.wf2",
    [⟨"a", BindingData.ref "node-7" "o"⟩, ⟨"b", BindingData.lit ⟨2⟩⟩],
    ["node-7"]⟩


/-! ## Support lemmas -/

theorem atomOk_bindingData (v : Val) (h : v.atomOk = true) :
    ∃ d, bindingDataOfVal v = Except.ok d := by
  cases v with
  | native n => exact ⟨_, rfl⟩
  | promise p =>
    cases hp : p.val with
    | lit l => exact ⟨BindingData.lit l, by simp [bindingDataOfVal, hp]⟩
    | ref nid ovar => exact ⟨BindingData.ref nid ovar, by simp [bindingDataOfVal, hp]⟩
  | globalRef g => exact ⟨_, rfl⟩
  | condSection => simp [Val.atomOk] at h
  | pynone => simp [Val.atomOk] at h
  | tup xs => simp [Val.atomOk] at h

theorem bindingDataOfList_ok (xs : List Val) (h : ∀ x ∈ xs, x.atomOk = true) :
    ∃ ds, bindingDataOfVal.bindingDataOfList xs = Except.ok ds := by
  induction xs with
  | nil => exact ⟨[], rfl⟩
  | cons x xs ih =>
    obtain ⟨d, hd⟩ := atomOk_bindingData x (h x (List.mem_cons_self x xs))
    obtain ⟨ds, hds⟩ := ih (fun y hy => h y (List.mem_cons_of_mem x hy))
    exact ⟨d :: ds, by simp [bindingDataOfVal.bindingDataOfList, hd, hds, bind, Except.bind]⟩

theorem goodValue_bindingData (v : Val) (h : v.goodValue = true) :
    ∃ d, bindingDataOfVal v = Except.ok d := by
  cases v with
  | tup xs =>
    have hall : ∀ x ∈ xs, x.atomOk = true := by
      simpa [Val.goodValue, List.all_eq_true] using h
    obtain ⟨ds, hds⟩ := bindingDataOfList_ok xs hall
    exact ⟨BindingData.collection ds, by simp [bindingDataOfVal, hds, Except.map]⟩
  | native n => exact ⟨_, rfl⟩
  | promise p => exact atomOk_bindingData _ h
  | globalRef g => exact ⟨_, rfl⟩
  | condSection => simp [Val.goodValue, Val.atomOk] at h
  | pynone => simp [Val.goodValue, Val.atomOk] at h

theorem goodValue_binding (name : String) (v : Val) (h : v.goodValue = true) :
    ∃ b, binding_from_python_std name v = Except.ok b ∧ b.var = name := by
  obtain ⟨d, hd⟩ := goodValue_bindingData v h
  exact ⟨⟨name, d⟩, by simp [binding_from_python_std, hd, Except.map], rfl⟩

theorem mapExcept_compileMultiBinding_ok (l : List (String × Val))
    (h : ∀ ov ∈ l, (ov.2).atomOk = true) :
    ∃ bs, mapExcept compileMultiBinding l = Except.ok bs := by
  induction l with
  | nil => exact ⟨[], rfl⟩
  | cons ov l ih =>
    have hov := h ov (List.mem_cons_self ov l)
    obtain ⟨bs, hbs⟩ := ih (fun y hy => h y (List.mem_cons_of_mem ov hy))
    have hcmb : ∃ b, compileMultiBinding ov = Except.ok b := by
      cases hv : ov.2 with
      | condSection => rw [hv] at hov; simp [Val.atomOk] at hov
      | native n => exact ⟨⟨ov.1, BindingData.lit (Literal.mk n)⟩,
          by simp [compileMultiBinding, hv, binding_from_python_std,
            bindingDataOfVal, Except.map]⟩
      | promise p =>
        obtain ⟨d, hd⟩ := atomOk_bindingData (Val.promise p) (by rw [← hv]; exact hov)
        exact ⟨⟨ov.1, d⟩,
          by simp [compileMultiBinding, hv, binding_from_python_std, hd, Except.map]⟩
      | globalRef g => exact ⟨⟨ov.1, BindingData.ref GLOBAL_INPUT_NODE_ID g⟩,
          by simp [compileMultiBinding, hv, binding_from_python_std,
            bindingDataOfVal, Except.map]⟩
      | pynone => rw [hv] at hov; simp [Val.atomOk] at hov
      | tup xs => rw [hv] at hov; simp [Val.atomOk] at hov
    obtain ⟨b, hb⟩ := hcmb
    exact ⟨b :: bs, by simp [mapExcept, hb, hbs, bind, Except.bind, pure, Except.pure]⟩

theorem compile_isOk_eq (wf : WorkflowDef) (body : WfBody)
    (kwargs : List (String × Val)) (ctx : FlyteContext) :
    (Workflow.compile wf body kwargs ctx).isOk
      = (compileBindings wf.outputs (Workflow.traceOutput wf body kwargs ctx)).isOk := by
  unfold Workflow.compile
  cases h : compileBindings wf.outputs (Workflow.traceOutput wf body kwargs ctx) with
  | ok br => simp [h, bind, Except.bind, Except.isOk, Except.toBool]
  | error e => simp [h, bind, Except.bind, Except.isOk, Except.toBool]

theorem compileBindings_shape (os : List String) (v : Val) (hlen : 1 ≤ os.length)
    (hgood : v.goodValue = true) :
    (compileBindings os v).isOk = true ↔ shapeOk os.length v = true := by
  match os with
  | [] => simp at hlen
  | [o] =>
    cases v with
    | tup xs =>
      by_cases hx : xs.length = 1
      · have hall : ∀ x ∈ xs, x.atomOk = true := by
          simpa [Val.goodValue, List.all_eq_true] using hgood
        obtain ⟨b, hb, _⟩ := goodValue_binding o (Val.tup xs) hgood
        simp [compileBindings, singleOutputCheck, hx, hb, bind, Except.bind, Except.isOk,
          Except.toBool, shapeOk]
      · simp [compileBindings, singleOutputCheck, hx, bind, Except.bind, Except.isOk,
          Except.toBool, shapeOk]
    | native n =>
      obtain ⟨b, hb, _⟩ := goodValue_binding o (Val.native n) hgood
      simp [compileBindings, singleOutputCheck, hb, bind, Except.bind, Except.isOk,
        Except.toBool, shapeOk]
    | promise p =>
      obtain ⟨b, hb, _⟩ := goodValue_binding o (Val.promise p) hgood
      simp [compileBindings, singleOutputCheck, hb, bind, Except.bind, Except.isOk,
        Except.toBool, shapeOk]
    | globalRef g =>
      obtain ⟨b, hb, _⟩ := goodValue_binding o (Val.globalRef g) hgood
      simp [compileBindings, singleOutputCheck, hb, bind, Except.bind, Except.isOk,
        Except.toBool, shapeOk]
    | condSection => simp [Val.goodValue, Val.atomOk] at hgood
    | pynone => simp [Val.goodValue, Val.atomOk] at hgood
  | o1 :: o2 :: rest =>
    cases v with
    | tup xs =>
      by_cases hx : rest.length + 1 + 1 = xs.length
      · have hall : ∀ ov ∈ (o1 :: o2 :: rest).zip xs, (ov.2).atomOk = true := by
          intro ov hov
          have hmem := (List.of_mem_zip hov).2
          have : ∀ x ∈ xs, x.atomOk = true := by
            simpa [Val.goodValue, List.all_eq_true] using hgood
          exact this _ hmem
        obtain ⟨bs, hbs⟩ := mapExcept_compileMultiBinding_ok _ hall
        simp [compileBindings, hx, hbs, bind, Except.bind, Except.isOk, Except.toBool,
          shapeOk]
      · simp [compileBindings, hx, bind, Except.bind, Except.isOk, Except.toBool, shapeOk,
          Ne.symm hx]
    | native n =>
      simp [compileBindings, Except.isOk, Except.toBool, shapeOk]
    | promise p =>
      simp [compileBindings, Except.isOk, Except.toBool, shapeOk]
    | globalRef g =>
      simp [compileBindings, Except.isOk, Except.toBool, shapeOk]
    | condSection => simp [Val.goodValue, Val.atomOk] at hgood
    | pynone => simp [Val.goodValue, Val.atomOk] at hgood

theorem binding_from_python_std_var (o : String) (v : Val) (b : Binding)
    (h : binding_from_python_std o v = Except.ok b) : b.var = o := by
  unfold binding_from_python_std at h
  cases hd : bindingDataOfVal v with
  | error e => rw [hd] at h; simp [Except.map] at h
  | ok d =>
    rw [hd] at h
    simp only [Except.map] at h
    cases h
    rfl

theorem compileMultiBinding_var (o : String) (v : Val) (b : Binding)
    (h : compileMultiBinding (o, v) = Except.ok b) : b.var = o := by
  unfold compileMultiBinding at h
  cases v with
  | condSection => cases h
  | native n => exact binding_from_python_std_var o _ b h
  | promise p => exact binding_from_python_std_var o _ b h
  | globalRef g => exact binding_from_python_std_var o _ b h
  | pynone => exact binding_from_python_std_var o _ b h
  | tup xs => exact binding_from_python_std_var o _ b h

theorem mapExcept_multi_vars (os : List String) (xs : List Val) (bs : List Binding)
    (h : mapExcept compileMultiBinding (os.zip xs) = Except.ok bs)
    (hlen : os.length = xs.length) :
    bs.map Binding.var = os := by
  induction os generalizing xs bs with
  | nil =>
    simp [mapExcept] at h
    simp [← h]
  | cons o os ih =>
    cases xs with
    | nil => simp at hlen
    | cons x xs' =>
      rw [List.zip_cons_cons] at h
      simp only [mapExcept, bind, Except.bind] at h
      cases hcmb : compileMultiBinding (o, x) with
      | error e => rw [hcmb] at h; cases h
      | ok b =>
        rw [hcmb] at h
        cases hrest : mapExcept compileMultiBinding (os.zip xs') with
        | error e => rw [hrest] at h; cases h
        | ok bs' =>
          rw [hrest] at h
          cases h
          simp [compileMultiBinding_var o x b hcmb,
            ih xs' bs' hrest (by simpa using hlen)]

theorem compile_ok_inv (wf : WorkflowDef) (body : WfBody)
    (kwargs : List (String × Val)) (ctx : FlyteContext)
    (ns : List Node) (bs : List Binding) (r : CompileRet)
    (h : Workflow.compile wf body kwargs ctx = Except.ok (ns, bs, r)) :
    compileBindings wf.outputs (Workflow.traceOutput wf body kwargs ctx)
      = Except.ok (bs, r) := by
  unfold Workflow.compile at h
  cases hcb : compileBindings wf.outputs (Workflow.traceOutput wf body kwargs ctx) with
  | error e =>
    rw [hcb] at h
    cases h
  | ok br =>
    rw [hcb] at h
    simp only [bind, Except.bind] at h
    cases h
    rfl

/-! ## C1 -/

/-- C1 counterexample: a workflow declaring zero outputs whose traced body
returns the value `5` compiles successfully and returns `None` —
`compile()` performs no output-shape check at all in the zero-output case
(lines 136-158 only handle `len(output_names) == 1` and `> 1`), so a
non-empty return value is not a fatal specification-mismatch error there,
contradicting the claim. -/
theorem C1_zero_output_counterexample :
    Workflow.compile wfK0 (bodyConstV (Val.native 5)) [] ctxPlain
      = Except.ok ([], [], CompileRet.pynone) := rfl

/-- C1 (amended): arity law for `compile()` — for `k = 0` declared outputs,
`compile()` performs no output-shape check and succeeds whatever the traced
body returned (the empty-return check lives only in the local-execution
path `_workflow_fn_outputs_to_promise`); for `k ≥ 1`, and a traced return
value that converts cleanly to bindings (no unresolved branch construct and
no `None`, in it), `compile()` succeeds iff the returned shape matches `k`:
a bare value or a singleton aggregate for `k = 1` (an aggregate of length
`≠ 1` is fatal), an aggregate of length exactly `k` for `k > 1`. -/
theorem C1_arity_law_amended (wf : WorkflowDef) (body : WfBody)
    (kwargs : List (String × Val)) (ctx : FlyteContext) :
    (wf.outputs.length = 0 → (Workflow.compile wf body kwargs ctx).isOk = true)
    ∧ (1 ≤ wf.outputs.length →
        (Workflow.traceOutput wf body kwargs ctx).goodValue = true →
        ((Workflow.compile wf body kwargs ctx).isOk = true
          ↔ shapeOk wf.outputs.length (Workflow.traceOutput wf body kwargs ctx) = true)) := by
  constructor
  · intro h0
    have hnil : wf.outputs = [] := List.length_eq_zero.mp h0
    rw [compile_isOk_eq, hnil]
    rfl
  · intro h1 hgood
    rw [compile_isOk_eq]
    exact compileBindings_shape wf.outputs _ h1 hgood

/-- C1 witness: the amended arity law applied at a two-output workflow
whose body returns a pair of concrete values. -/
theorem C1_arity_law_amended_witness :
    (Workflow.compile wfK2 (bodyConstV (Val.tup [Val.native 1, Val.native 2]))
      [] ctxPlain).isOk = true :=
  ((C1_arity_law_amended wfK2 (bodyConstV (Val.tup [Val.native 1, Val.native 2]))
      [] ctxPlain).2 (by decide) (by rfl)).mpr (by rfl)

/-! ## C9 -/

/-- C9: the value a successful `compile()` hands back to its caller is
`None` when zero outputs are declared, the single output binding when
exactly one output is declared, and the tuple of the output bindings — in
declared-output order, one binding named after each declared output — when
more than one output is declared (lines 160-167). -/
theorem C9_compile_return_shape (wf : WorkflowDef) (body : WfBody)
    (kwargs : List (String × Val)) (ctx : FlyteContext)
    (ns : List Node) (bs : List Binding) (r : CompileRet)
    (h : Workflow.compile wf body kwargs ctx = Except.ok (ns, bs, r)) :
    (wf.outputs = [] → bs = [] ∧ r = CompileRet.pynone)
    ∧ (wf.outputs.length = 1 →
        ∃ b, bs = [b] ∧ r = CompileRet.single b ∧ [b.var] = wf.outputs)
    ∧ (1 < wf.outputs.length →
        r = CompileRet.tuple bs ∧ bs.map Binding.var = wf.outputs) := by
  have hcb := compile_ok_inv wf body kwargs ctx ns bs r h
  refine ⟨?_, ?_, ?_⟩
  · intro hnil
    rw [hnil] at hcb
    simp only [compileBindings] at hcb
    cases hcb
    exact ⟨rfl, rfl⟩
  · intro h1
    obtain ⟨o, ho⟩ := List.length_eq_one.mp h1
    rw [ho] at hcb
    simp only [compileBindings, bind, Except.bind] at hcb
    cases hchk : singleOutputCheck (Workflow.traceOutput wf body kwargs ctx) with
    | error e => rw [hchk] at hcb; cases hcb
    | ok u =>
      rw [hchk] at hcb
      cases hb : binding_from_python_std o (Workflow.traceOutput wf body kwargs ctx) with
      | error e => rw [hb] at hcb; cases hcb
      | ok b =>
        rw [hb] at hcb
        cases hcb
        exact ⟨b, rfl, rfl, by rw [binding_from_python_std_var o _ b hb, ho]⟩
  · intro hgt
    match hos : wf.outputs with
    | [] => rw [hos] at hgt; simp at hgt
    | [o] => rw [hos] at hgt; simp at hgt
    | o1 :: o2 :: rest =>
      rw [hos] at hcb
      cases hv : Workflow.traceOutput wf body kwargs ctx with
      | tup xs =>
        rw [hv] at hcb
        rw [show compileBindings (o1 :: o2 :: rest) (Val.tup xs)
            = if (o1 :: o2 :: rest).length ≠ xs.length then
                Except.error (WfError.multiOutputLenMismatch
                  (o1 :: o2 :: rest).length xs.length)
              else
                Except.bind (mapExcept compileMultiBinding ((o1 :: o2 :: rest).zip xs))
                  (fun bindings => Except.ok (bindings, CompileRet.tuple bindings))
          from rfl] at hcb
        by_cases hlen : (o1 :: o2 :: rest).length ≠ xs.length
        · rw [if_pos hlen] at hcb; cases hcb
        · rw [if_neg hlen] at hcb
          cases hm : mapExcept compileMultiBinding ((o1 :: o2 :: rest).zip xs) with
          | error e => rw [hm] at hcb; cases hcb
          | ok bs' =>
            rw [hm] at hcb
            simp only [Except.bind] at hcb
            cases hcb
            exact ⟨rfl, mapExcept_multi_vars _ xs _ hm (not_not.mp hlen)⟩
      | native n => rw [hv] at hcb; cases hcb
      | promise p => rw [hv] at hcb; cases hcb
      | globalRef g => rw [hv] at hcb; cases hcb
      | condSection => rw [hv] at hcb; cases hcb
      | pynone => rw [hv] at hcb; cases hcb

/-- C9 witness: the return-shape law applied at a two-output workflow. -/
theorem C9_compile_return_shape_witness :
    ∃ bs, (Workflow.compile wfK2 (bodyConstV (Val.tup [Val.native 1, Val.native 2]))
        [] ctxPlain
      = Except.ok ([], bs, CompileRet.tuple bs))
    ∧ bs.map Binding.var = ["o1", "o2"] := by
  refine ⟨[⟨"o1", BindingData.lit ⟨1⟩⟩, ⟨"o2", BindingData.lit ⟨2⟩⟩], rfl, ?_⟩
  have h := (C9_compile_return_shape wfK2
    (bodyConstV (Val.tup [Val.native 1, Val.native 2])) [] ctxPlain
    [] [⟨"o1", BindingData.lit ⟨1⟩⟩, ⟨"o2", BindingData.lit ⟨2⟩⟩]
    (CompileRet.tuple [⟨"o1", BindingData.lit ⟨1⟩⟩, ⟨"o2", BindingData.lit ⟨2⟩⟩])
    rfl).2.2 (by decide)
  exact h.2

/-! ## C10 -/

/-- C10: exporter cache freeze — starting from an uncached compiled
workflow state, the first `get_registerable_entity` call builds the entity
with the identifier fields stamped from the ambient registration settings
at that moment, and every subsequent call returns that identical cached
entity unchanged, whatever the ambient registration settings have become. -/
theorem C10_exporter_cache_freeze (s : WorkflowState) (ctx1 ctx2 : FlyteContext)
    (s1 : WorkflowState) (e1 : SdkWorkflow)
    (hfresh : s.registerable_entity = none)
    (h1 : Workflow.get_registerable_entity s ctx1 = Except.ok (s1, e1)) :
    Workflow.get_registerable_entity s1 ctx2 = Except.ok (s1, e1)
    ∧ e1.project = ctx1.registration_settings_project
    ∧ e1.domain = ctx1.registration_settings_domain
    ∧ e1.version = ctx1.registration_settings_version := by
  unfold Workflow.get_registerable_entity at h1
  rw [hfresh] at h1
  cases hn : s.nodes with
  | none => rw [hn] at h1; cases h1
  | some nsl =>
    rw [hn] at h1
    cases h1
    exact ⟨rfl, rfl, rfl, rfl⟩

/-- C10 witness: exporting once under `ctxPlain` and again under different
registration settings returns the first entity, still stamped "proj",
"dom", "ver". -/
theorem C10_exporter_cache_freeze_witness :
    Workflow.get_registerable_entity wsCached ctxOther = Except.ok (wsCached, sdkFirst)
    ∧ sdkFirst.project = "proj" ∧ sdkFirst.domain = "dom"
    ∧ sdkFirst.version = "ver" :=
  C10_exporter_cache_freeze wsFresh ctxPlain ctxOther wsCached sdkFirst rfl rfl

/-! ## C3 -/

/-- C3: idempotent compile — if the traced call sequence is deterministic
(the body records the same nodes and returns the same value under the fresh
compilation contexts derived from either ambient context), then `compile`
produces structurally identical results (same nodes, hence same node
identifiers and upstream sets, and the same output bindings) regardless of
the ambient context it starts from; in particular, compiling twice, or on
fresh instances, yields identical results. -/
theorem C3_idempotent_compile (wf : WorkflowDef) (body : WfBody)
    (kwargs : List (String × Val)) (ctx1 ctx2 : FlyteContext)
    (hdet : ∀ ik : List (String × Val),
      (body ik { ctx1 with compilation_state := some ⟨[]⟩ }).1.compilation_state
        = (body ik { ctx2 with compilation_state := some ⟨[]⟩ }).1.compilation_state
      ∧ (body ik { ctx1 with compilation_state := some ⟨[]⟩ }).2
        = (body ik { ctx2 with compilation_state := some ⟨[]⟩ }).2) :
    Workflow.compile wf body kwargs ctx1 = Workflow.compile wf body kwargs ctx2 := by
  obtain ⟨hst, hout⟩ := hdet (dictUpdate (construct_input_promises wf) kwargs)
  unfold Workflow.compile Workflow.traceNodes Workflow.traceOutput Workflow.traceBody
  rw [hst, hout]

/-- C3 witness: compiling a one-node workflow from a plain context and from
a context with leftover compilation state yields identical results. -/
theorem C3_idempotent_compile_witness :
    Workflow.compile wfK1 bodyLinkOne [] ctxPlain
      = Workflow.compile wfK1 bodyLinkOne [] ctxStale :=
  C3_idempotent_compile wfK1 bodyLinkOne [] ctxPlain ctxStale
    (fun _ => ⟨rfl, rfl⟩)

/-! ## The string comparator agrees with the lexicographic order -/

theorem strLtList_iff (x y : List Char) : strLtList x y = true ↔ x < y := by
  induction x generalizing y with
  | nil =>
    cases y with
    | nil =>
      simp only [strLtList, Bool.false_eq_true, false_iff]
      intro h
      nomatch h
    | cons b bs =>
      simp only [strLtList, true_iff]
      exact List.Lex.nil
  | cons a as ih =>
    cases y with
    | nil =>
      simp only [strLtList, Bool.false_eq_true, false_iff]
      intro h
      nomatch h
    | cons b bs =>
      by_cases hab : a < b
      · simp only [strLtList, if_pos hab, true_iff]
        exact List.Lex.rel hab
      · by_cases hba : b < a
        · simp only [strLtList, if_neg hab, if_pos hba, Bool.false_eq_true, false_iff]
          intro h
          cases h with
          | cons h' => exact lt_irrefl a hba
          | rel h' => exact hab h'
        · have heq : a = b := le_antisymm (not_lt.mp hba) (not_lt.mp hab)
          subst heq
          simp only [strLtList, if_neg hab, if_neg hba]
          rw [ih bs]
          constructor
          · exact fun h => List.Lex.cons h
          · intro h
            cases h with
            | cons h' => exact h'
            | rel h' => exact absurd h' hab

theorem strLe_iff_not_lt (a b : String) :
    strLe a b = true ↔ ¬ (b.data < a.data) := by
  unfold strLe strLt
  rw [Bool.not_eq_true']
  constructor
  · intro h hba
    rw [← strLtList_iff] at hba
    rw [h] at hba
    cases hba
  · intro h
    cases hlt : strLtList b.data a.data with
    | false => rfl
    | true => exact absurd ((strLtList_iff _ _).mp hlt) h

theorem strLe_relation_total : ∀ a b : String, strLe a b = true ∨ strLe b a = true := by
  intro a b
  rw [strLe_iff_not_lt, strLe_iff_not_lt]
  rcases lt_trichotomy a.data b.data with h | h | h
  · exact Or.inl (asymm h)
  · exact Or.inl (by rw [h]; exact lt_irrefl _)
  · exact Or.inr (asymm h)

theorem strLe_relation_trans (a b c : String)
    (hab : strLe a b = true) (hbc : strLe b c = true) : strLe a c = true := by
  rw [strLe_iff_not_lt] at hab hbc ⊢
  intro hca
  exact absurd hca (not_lt.mpr (le_trans (not_lt.mp hab) (not_lt.mp hbc)))

instance : IsTotal String (fun a b => strLe a b = true) :=
  ⟨strLe_relation_total⟩

instance : IsTrans String (fun a b => strLe a b = true) :=
  ⟨strLe_relation_trans⟩

instance : IsTotal Binding (fun a b => strLe a.var b.var = true) :=
  ⟨fun a b => strLe_relation_total a.var b.var⟩

instance : IsTrans Binding (fun a b => strLe a.var b.var = true) :=
  ⟨fun a b c => strLe_relation_trans a.var b.var c.var⟩

/-! ## Link-mode inversion lemmas -/

theorem createAndLinkNode_ok_inv (wf : WorkflowDef) (ctx : FlyteContext)
    (st : CompilationState) (kwargs : List (String × Val))
    (ctx' : FlyteContext) (v : Val)
    (hc : ctx.compilation_state = some st)
    (hok : Workflow.createAndLinkNode wf ctx kwargs = Except.ok (ctx', v)) :
    ∃ bindings,
      mapExcept (linkInputBinding kwargs)
          (wf.inputs.insertionSort (fun a b => strLe a b = true))
        = Except.ok bindings
      ∧ (linkExtraInputs wf kwargs).length = 0
      ∧ ctx' = pushNode ctx st (linkNode wf st kwargs bindings)
      ∧ v = create_task_output (some (linkNodeOutputs wf
          (linkNode wf st kwargs bindings))) := by
  unfold Workflow.createAndLinkNode at hok
  rw [hc] at hok
  cases hm : mapExcept (linkInputBinding kwargs)
      (wf.inputs.insertionSort (fun a b => strLe a b = true)) with
  | error e => rw [hm] at hok; cases hok
  | ok bindings =>
    rw [hm] at hok
    simp only [bind, Except.bind] at hok
    by_cases hex : (linkExtraInputs wf kwargs).length > 0
    · rw [if_pos hex] at hok; cases hok
    · rw [if_neg hex] at hok
      cases hok
      exact ⟨bindings, rfl, Nat.eq_zero_of_not_pos hex, rfl, rfl⟩

theorem call_link_eq (wf : WorkflowDef) (body : WfBody)
    (kwargs : List (String × Val)) (ctx : FlyteContext)
    (hc : ctx.compilation_state.isSome = true) :
    Workflow.call wf body [] kwargs ctx = Workflow.createAndLinkNode wf ctx kwargs := by
  unfold Workflow.call
  simp [hc]

/-! ## C2 -/

/-- C2: link mode — while a compilation context is active, a workflow call
never runs the function body (the result is the same for any two bodies),
and a successful call appends exactly one new node to the context's node
list, with identifier `"node-<n>"` where `n` is the number of nodes already
recorded, returning one output promise per declared output referencing that
node under the output's name — a single promise for one declared output, an
ordered tuple otherwise. -/
theorem C2_link_mode (wf : WorkflowDef) (body₁ body₂ : WfBody)
    (st : CompilationState) (ctx : FlyteContext)
    (kwargs : List (String × Val)) (ctx' : FlyteContext) (v : Val)
    (hc : ctx.compilation_state = some st)
    (hok : Workflow.call wf body₁ [] kwargs ctx = Except.ok (ctx', v)) :
    Workflow.call wf body₂ [] kwargs ctx = Workflow.call wf body₁ [] kwargs ctx
    ∧ ∃ node,
        ctx'.compilation_state = some ⟨st.nodes ++ [node]⟩
        ∧ node.id = "node-" ++ toString st.nodes.length
        ∧ (match wf.outputs with
           | [o] => v = Val.promise (Promise.mk o (PromiseVal.ref node.id o))
           | _ => v = Val.tup ((wf.outputs.map fun o =>
               Promise.mk o (PromiseVal.ref node.id o)).map Val.promise)) := by
  have hcs : ctx.compilation_state.isSome = true := by rw [hc]; rfl
  have he₁ := call_link_eq wf body₁ kwargs ctx hcs
  have he₂ := call_link_eq wf body₂ kwargs ctx hcs
  refine ⟨he₂.trans he₁.symm, ?_⟩
  rw [he₁] at hok
  obtain ⟨bindings, _, _, hctx, hv⟩ :=
    createAndLinkNode_ok_inv wf ctx st kwargs ctx' v hc hok
  refine ⟨linkNode wf st kwargs bindings, by rw [hctx]; rfl, rfl, ?_⟩
  rw [hv]
  cases hos : wf.outputs with
  | nil => simp only [linkNodeOutputs, hos]; rfl
  | cons o os =>
    cases os with
    | nil => simp only [linkNodeOutputs, hos]; rfl
    | cons o2 os' => simp only [linkNodeOutputs, hos]; rfl

/-- C2 witness: linking `wfK2` under an active (empty) compilation context
records node `"node-0"` and returns the tuple of its two output promises. -/
theorem C2_link_mode_witness :
    Workflow.call wfK2 bodyEcho []
        [("a", Val.native 1), ("b", Val.native 2)] ctxComp0
      = Workflow.call wfK2 bodyInner []
        [("a", Val.native 1), ("b", Val.native 2)] ctxComp0 :=
  (C2_link_mode wfK2 bodyInner bodyEcho ⟨[]⟩ ctxComp0
    [("a", Val.native 1), ("b", Val.native 2)] ctxAfterK2 valK2 rfl rfl).1

/-! ## C4 -/

/-- C4: the upstream-dependency set of a linked node is exactly the set of
distinct nodes referenced by the call's `Promise`-valued arguments: a
member iff some keyword argument is a promise referencing that node, with
no duplicates, and empty when every argument is concrete (non-`Promise`). -/
theorem C4_upstream_set (wf : WorkflowDef) (ctx : FlyteContext)
    (st : CompilationState) (kwargs : List (String × Val))
    (ctx' : FlyteContext) (v : Val)
    (hc : ctx.compilation_state = some st)
    (hok : Workflow.createAndLinkNode wf ctx kwargs = Except.ok (ctx', v)) :
    ∃ node, ctx'.compilation_state = some ⟨st.nodes ++ [node]⟩
      ∧ node.upstream_nodes.Nodup
      ∧ (∀ nid, nid ∈ node.upstream_nodes ↔
          ∃ kv ∈ kwargs, ∃ p : Promise, kv.2 = Val.promise p
            ∧ ∃ ov, p.val = PromiseVal.ref nid ov)
      ∧ ((∀ kv ∈ kwargs, (kv.2).isPromise = false) →
          node.upstream_nodes = []) := by
  obtain ⟨bindings, _, _, hctx, _⟩ :=
    createAndLinkNode_ok_inv wf ctx st kwargs ctx' v hc hok
  refine ⟨linkNode wf st kwargs bindings, by rw [hctx]; rfl, ?_, ?_, ?_⟩
  · exact List.nodup_dedup _
  · intro nid
    show nid ∈ (linkUpstream kwargs).dedup ↔ _
    rw [List.mem_dedup]
    unfold linkUpstream
    rw [List.mem_filterMap]
    constructor
    · rintro ⟨kv, hkv, hf⟩
      cases hv2 : kv.2 with
      | promise p =>
        rw [hv2] at hf
        have hf' : (match p.val with
            | PromiseVal.ref nid' _ => some nid'
            | PromiseVal.lit _ => none) = some nid := hf
        cases hpv : p.val with
        | ref nid' ov =>
          rw [hpv] at hf'
          simp only [Option.some.injEq] at hf'
          exact ⟨kv, hkv, p, hv2, ov, by rw [hpv, hf']⟩
        | lit l => rw [hpv] at hf'; cases hf'
      | native n => rw [hv2] at hf; cases hf
      | globalRef g => rw [hv2] at hf; cases hf
      | condSection => rw [hv2] at hf; cases hf
      | pynone => rw [hv2] at hf; cases hf
      | tup xs => rw [hv2] at hf; cases hf
    · rintro ⟨kv, hkv, p, hp, ov, href⟩
      refine ⟨kv, hkv, ?_⟩
      rw [hp]
      show (match p.val with
        | PromiseVal.ref nid' _ => some nid'
        | PromiseVal.lit _ => none) = some nid
      rw [href]
  · intro hconc
    show (linkUpstream kwargs).dedup = []
    have hnil : linkUpstream kwargs = [] := by
      unfold linkUpstream
      rw [List.filterMap_eq_nil_iff]
      intro kv hkv
      cases hv2 : kv.2 with
      | promise p =>
        have := hconc kv hkv
        rw [hv2] at this
        simp [Val.isPromise] at this
      | native n => rfl
      | globalRef g => rfl
      | condSection => rfl
      | pynone => rfl
      | tup xs => rfl
    rw [hnil]
    rfl

/-- C4 witness: a call with one promise-valued and one concrete argument
yields an upstream set containing exactly the promise's node. -/
theorem C4_upstream_set_witness :
    ∃ node, (⟨some ⟨[nodeLinkW]⟩, none, "proj", "dom", "ver"⟩ :
        FlyteContext).compilation_state = some ⟨[] ++ [node]⟩
      ∧ node.upstream_nodes.Nodup
      ∧ ("node-7" ∈ node.upstream_nodes ↔
          ∃ kv ∈ ([("a", Val.promise promN7), ("b", Val.native 2)] :
              List (String × Val)), ∃ p : Promise, kv.2 = Val.promise p
            ∧ ∃ ov, p.val = PromiseVal.ref "node-7" ov) := by
  obtain ⟨node, h1, h2, h3, _⟩ := C4_upstream_set wfK2 ctxComp0 ⟨[]⟩
    [("a", Val.promise promN7), ("b", Val.native 2)]
    ⟨some ⟨[nodeLinkW]⟩, none, "proj", "dom", "ver"⟩
    (Val.tup [Val.promise ⟨"o1", PromiseVal.ref "node-0" "o1"⟩,
      Val.promise ⟨"o2", PromiseVal.ref "node-0" "o2"⟩])
    rfl rfl
  exact ⟨node, h1, h2, h3 "node-7"⟩

/-! ## C6 support lemmas -/

theorem lookup_mem {l : List (String × Val)} {k : String} {v : Val}
    (h : l.lookup k = some v) : (k, v) ∈ l := by
  induction l with
  | nil => cases h
  | cons kv l ih =>
    obtain ⟨k', v'⟩ := kv
    rw [List.lookup_cons] at h
    by_cases he : (k == k') = true
    · rw [he] at h
      simp only [Option.some.injEq] at h
      have : k = k' := beq_iff_eq.mp he
      rw [this, ← h]
      exact List.mem_cons_self _ _
    · rw [Bool.not_eq_true] at he
      rw [he] at h
      exact List.mem_cons_of_mem _ (ih h)

theorem linkInputBinding_ok (kwargs : List (String × Val)) (k : String)
    (hgood : ∀ kv ∈ kwargs, (kv.2).atomOk = true)
    (hp : kwargs.lookup k ≠ none) :
    ∃ b, linkInputBinding kwargs k = Except.ok b := by
  unfold linkInputBinding
  cases hl : kwargs.lookup k with
  | none => exact absurd hl hp
  | some v =>
    have hmem := lookup_mem hl
    have hatom : v.atomOk = true := hgood (k, v) hmem
    obtain ⟨d, hd⟩ := atomOk_bindingData v hatom
    exact ⟨⟨k, d⟩, by simp [binding_from_python_std, hd, Except.map]⟩

theorem linkInputs_ok (ks : List String) (kwargs : List (String × Val))
    (hgood : ∀ kv ∈ kwargs, (kv.2).atomOk = true)
    (hpres : ∀ k ∈ ks, kwargs.lookup k ≠ none) :
    ∃ bs, mapExcept (linkInputBinding kwargs) ks = Except.ok bs := by
  induction ks with
  | nil => exact ⟨[], rfl⟩
  | cons k ks ih =>
    obtain ⟨b, hb⟩ := linkInputBinding_ok kwargs k hgood
      (hpres k (List.mem_cons_self k ks))
    obtain ⟨bs, hbs⟩ := ih (fun k' hk' => hpres k' (List.mem_cons_of_mem k hk'))
    exact ⟨b :: bs, by simp [mapExcept, hb, hbs, bind, Except.bind]⟩

theorem linkInputs_missing (ks : List String) (kwargs : List (String × Val))
    (hgood : ∀ kv ∈ kwargs, (kv.2).atomOk = true)
    (hmiss : ∃ k ∈ ks, kwargs.lookup k = none) :
    ∃ k', k' ∈ ks ∧ kwargs.lookup k' = none
      ∧ mapExcept (linkInputBinding kwargs) ks
          = Except.error (WfError.inputNotSpecified k') := by
  induction ks with
  | nil => obtain ⟨k, hk, _⟩ := hmiss; cases hk
  | cons k ks ih =>
    by_cases hl : kwargs.lookup k = none
    · refine ⟨k, List.mem_cons_self k ks, hl, ?_⟩
      have : linkInputBinding kwargs k = Except.error (WfError.inputNotSpecified k) := by
        unfold linkInputBinding
        rw [hl]
      simp [mapExcept, this, bind, Except.bind]
    · obtain ⟨k0, hk0, hk0n⟩ := hmiss
      have hk0tail : k0 ∈ ks := by
        cases List.mem_cons.mp hk0 with
        | inl he => exact absurd (he ▸ hk0n) hl
        | inr ht => exact ht
      obtain ⟨k', hk', hk'n, herr⟩ := ih ⟨k0, hk0tail, hk0n⟩
      obtain ⟨b, hb⟩ := linkInputBinding_ok kwargs k hgood hl
      exact ⟨k', List.mem_cons_of_mem k hk', hk'n,
        by simp [mapExcept, hb, herr, bind, Except.bind]⟩

theorem linkInputs_err_of_missing (ks : List String) (kwargs : List (String × Val))
    (hmiss : ∃ k ∈ ks, kwargs.lookup k = none) :
    ∃ e, mapExcept (linkInputBinding kwargs) ks = Except.error e := by
  induction ks with
  | nil => obtain ⟨k, hk, _⟩ := hmiss; cases hk
  | cons k ks ih =>
    cases hb : linkInputBinding kwargs k with
    | error e => exact ⟨e, by simp [mapExcept, hb, bind, Except.bind]⟩
    | ok b =>
      have hl : kwargs.lookup k ≠ none := by
        intro hnone
        unfold linkInputBinding at hb
        rw [hnone] at hb
        cases hb
      obtain ⟨k0, hk0, hk0n⟩ := hmiss
      have hk0tail : k0 ∈ ks := by
        cases List.mem_cons.mp hk0 with
        | inl he => exact absurd (he ▸ hk0n) hl
        | inr ht => exact ht
      obtain ⟨e, he⟩ := ih ⟨k0, hk0tail, hk0n⟩
      exact ⟨e, by simp [mapExcept, hb, he, bind, Except.bind]⟩

theorem createAndLinkNode_err (wf : WorkflowDef) (ctx : FlyteContext)
    (st : CompilationState) (kwargs : List (String × Val)) (e : WfError)
    (hc : ctx.compilation_state = some st)
    (hm : mapExcept (linkInputBinding kwargs)
        (wf.inputs.insertionSort (fun a b => strLe a b = true)) = Except.error e) :
    Workflow.createAndLinkNode wf ctx kwargs = Except.error e := by
  unfold Workflow.createAndLinkNode
  rw [hc, hm]
  rfl

theorem createAndLinkNode_ok_of (wf : WorkflowDef) (ctx : FlyteContext)
    (st : CompilationState) (kwargs : List (String × Val)) (bindings : List Binding)
    (hc : ctx.compilation_state = some st)
    (hm : mapExcept (linkInputBinding kwargs)
        (wf.inputs.insertionSort (fun a b => strLe a b = true)) = Except.ok bindings)
    (hex : (linkExtraInputs wf kwargs).length = 0) :
    Workflow.createAndLinkNode wf ctx kwargs
      = Except.ok (pushNode ctx st (linkNode wf st kwargs bindings),
          create_task_output (some (linkNodeOutputs wf
            (linkNode wf st kwargs bindings)))) := by
  unfold Workflow.createAndLinkNode
  rw [hc, hm]
  simp only [bind, Except.bind]
  rw [if_neg (by rw [hex]; exact lt_irrefl 0)]
  rfl

theorem contains_iff_mem (l : List String) (k : String) :
    l.contains k = true ↔ k ∈ l := List.elem_iff

theorem extra_pos_of_extra (wf : WorkflowDef) (kwargs : List (String × Val))
    (hextra : ∃ kv ∈ kwargs, kv.1 ∉ wf.inputs) :
    (linkExtraInputs wf kwargs).length > 0 := by
  obtain ⟨kv, hkv, hnot⟩ := hextra
  have hmemf : kv.1 ∈ (kwargs.map Prod.fst).filter
      (fun k => ¬ wf.inputs.contains k) := by
    rw [List.mem_filter]
    refine ⟨List.mem_map.mpr ⟨kv, hkv, rfl⟩, ?_⟩
    simp only [decide_eq_true_eq]
    rw [contains_iff_mem]
    exact hnot
  have : kv.1 ∈ linkExtraInputs wf kwargs := by
    unfold linkExtraInputs
    exact List.mem_append_left _ hmemf
  exact List.length_pos.mpr (List.ne_nil_of_mem this)

theorem extra_zero_of (wf : WorkflowDef) (kwargs : List (String × Val))
    (h1 : ∀ kv ∈ kwargs, kv.1 ∈ wf.inputs)
    (h2 : ∀ k ∈ wf.inputs, kwargs.lookup k ≠ none) :
    (linkExtraInputs wf kwargs).length = 0 := by
  unfold linkExtraInputs
  rw [List.length_eq_zero, List.append_eq_nil]
  constructor
  · rw [List.filter_eq_nil_iff]
    intro k hk
    obtain ⟨kv, hkv, hfst⟩ := List.mem_map.mp hk
    simp only [decide_eq_true_eq, not_not]
    rw [contains_iff_mem]
    exact hfst ▸ h1 kv hkv
  · rw [List.filter_eq_nil_iff]
    intro k hk
    simp only [decide_eq_true_eq, not_not]
    rw [contains_iff_mem]
    cases hl : kwargs.lookup k with
    | none => exact absurd hl (h2 k hk)
    | some v => exact List.mem_map.mpr ⟨(k, v), lookup_mem hl, rfl⟩

theorem sortedInputs_mem (wf : WorkflowDef) (k : String) :
    k ∈ wf.inputs.insertionSort (fun a b => strLe a b = true) ↔ k ∈ wf.inputs :=
  (List.perm_insertionSort (fun a b => strLe a b = true) wf.inputs).mem_iff

/-! ## C6 -/

/-- C6: link-mode input validation — with ordinary (concrete, promise, or
input-reference) argument values: a declared input missing from the keyword
arguments makes the call fail with the fatal missing-input error; no
missing input but an undeclared keyword makes it fail with the fatal
"too many inputs" error; when the keyword-argument name set equals the
declared input name set exactly, a node is built; and, unconditionally, a
successful call means the two name sets were equal. -/
theorem C6_link_input_validation (wf : WorkflowDef) (ctx : FlyteContext)
    (st : CompilationState) (kwargs : List (String × Val))
    (hc : ctx.compilation_state = some st) :
    ((∀ kv ∈ kwargs, (kv.2).atomOk = true) →
      (∃ k ∈ wf.inputs, kwargs.lookup k = none) →
      ∃ k', k' ∈ wf.inputs ∧ kwargs.lookup k' = none
        ∧ Workflow.createAndLinkNode wf ctx kwargs
            = Except.error (WfError.inputNotSpecified k'))
    ∧ ((∀ kv ∈ kwargs, (kv.2).atomOk = true) →
        (∀ k ∈ wf.inputs, kwargs.lookup k ≠ none) →
        (∃ kv ∈ kwargs, kv.1 ∉ wf.inputs) →
        Workflow.createAndLinkNode wf ctx kwargs
          = Except.error WfError.tooManyInputs)
    ∧ ((∀ kv ∈ kwargs, (kv.2).atomOk = true) →
        (∀ k ∈ wf.inputs, kwargs.lookup k ≠ none) →
        (∀ kv ∈ kwargs, kv.1 ∈ wf.inputs) →
        (Workflow.createAndLinkNode wf ctx kwargs).isOk = true)
    ∧ ((Workflow.createAndLinkNode wf ctx kwargs).isOk = true →
        (∀ k ∈ wf.inputs, kwargs.lookup k ≠ none)
        ∧ (∀ kv ∈ kwargs, kv.1 ∈ wf.inputs)) := by
  refine ⟨?_, ?_, ?_, ?_⟩
  · intro hgood hmiss
    obtain ⟨k, hk, hkn⟩ := hmiss
    obtain ⟨k', hk', hk'n, herr⟩ := linkInputs_missing
      (wf.inputs.insertionSort (fun a b => strLe a b = true)) kwargs hgood
      ⟨k, (sortedInputs_mem wf k).mpr hk, hkn⟩
    exact ⟨k', (sortedInputs_mem wf k').mp hk', hk'n,
      createAndLinkNode_err wf ctx st kwargs _ hc herr⟩
  · intro hgood hpres hextra
    obtain ⟨bs, hbs⟩ := linkInputs_ok _ kwargs hgood
      (fun k hk => hpres k ((sortedInputs_mem wf k).mp hk))
    unfold Workflow.createAndLinkNode
    rw [hc, hbs]
    simp only [bind, Except.bind]
    rw [if_pos (extra_pos_of_extra wf kwargs hextra)]
  · intro hgood hpres hdecl
    obtain ⟨bs, hbs⟩ := linkInputs_ok _ kwargs hgood
      (fun k hk => hpres k ((sortedInputs_mem wf k).mp hk))
    rw [createAndLinkNode_ok_of wf ctx st kwargs bs hc hbs
      (extra_zero_of wf kwargs hdecl hpres)]
    rfl
  · intro hok
    unfold Workflow.createAndLinkNode at hok
    rw [hc] at hok
    cases hm : mapExcept (linkInputBinding kwargs)
        (wf.inputs.insertionSort (fun a b => strLe a b = true)) with
    | error e => rw [hm] at hok; cases hok
    | ok bs =>
      rw [hm] at hok
      simp only [bind, Except.bind] at hok
      by_cases hex : (linkExtraInputs wf kwargs).length > 0
      · rw [if_pos hex] at hok; cases hok
      · constructor
        · intro k hk hkn
          obtain ⟨e, he⟩ := linkInputs_err_of_missing
            (wf.inputs.insertionSort (fun a b => strLe a b = true)) kwargs
            ⟨k, (sortedInputs_mem wf k).mpr hk, hkn⟩
          rw [he] at hm
          cases hm
        · intro kv hkv
          by_contra hnot
          exact absurd (extra_pos_of_extra wf kwargs ⟨kv, hkv, hnot⟩) hex

/-- C6 witness: the validation law applied at `wfK2` with exactly matching
keyword arguments. -/
theorem C6_link_input_validation_witness :
    (Workflow.createAndLinkNode wfK2 ctxComp0
      [("a", Val.native 1), ("b", Val.native 2)]).isOk = true :=
  (C6_link_input_validation wfK2 ctxComp0 ⟨[]⟩
    [("a", Val.native 1), ("b", Val.native 2)] rfl).2.2.1
    (by decide)
    (by
      intro k hk
      rcases List.mem_cons.mp hk with h | h
      · subst h
        intro hn
        nomatch hn
      · rcases List.mem_cons.mp h with h2 | h2
        · subst h2
          intro hn
          nomatch hn
        · cases h2)
    (by decide)

/-! ## C7 -/

theorem lookup_eq_of_perm : ∀ {l₁ l₂ : List (String × Val)}, l₁.Perm l₂ →
    (l₁.map Prod.fst).Nodup → ∀ k, l₁.lookup k = l₂.lookup k := by
  intro l₁ l₂ h
  induction h with
  | nil => intro _ _; rfl
  | cons kv h' ih =>
    intro hnd k
    obtain ⟨k', v'⟩ := kv
    rw [List.lookup_cons, List.lookup_cons]
    cases hbe : k == k' with
    | true => rfl
    | false =>
      have hnd' : (List.map Prod.fst _).Nodup := (List.nodup_cons.mp (by simpa using hnd)).2
      exact ih hnd' k
  | swap x y l =>
    intro hnd k
    obtain ⟨a, va⟩ := x
    obtain ⟨b, vb⟩ := y
    have hba : b ≠ a := by
      have hb : b ∉ a :: List.map Prod.fst l := (List.nodup_cons.mp (by simpa using hnd)).1
      exact fun he => hb (he ▸ List.mem_cons_self a _)
    rw [List.lookup_cons, List.lookup_cons, List.lookup_cons, List.lookup_cons]
    cases hkb : k == b with
    | true =>
      cases hka : k == a with
      | true => exact absurd (beq_iff_eq.mp hkb ▸ beq_iff_eq.mp hka) hba
      | false => rfl
    | false =>
      cases hka : k == a with
      | true => rfl
      | false => rfl
  | trans h₁ h₂ ih₁ ih₂ =>
    intro hnd k
    rw [ih₁ hnd k, ih₂ (((h₁.map Prod.fst).nodup_iff).mp hnd) k]

/-- C7: binding-order invariance — a linked node's input bindings are
sorted lexicographically by input name, and two calls supplying the same
keyword arguments in different orders (a permutation with no duplicate
names) produce identical binding lists and the same upstream set. -/
theorem C7_binding_order (wf : WorkflowDef) (ctx : FlyteContext)
    (st : CompilationState) (kwargs₁ kwargs₂ : List (String × Val))
    (ctx₁ ctx₂ : FlyteContext) (v₁ v₂ : Val)
    (hc : ctx.compilation_state = some st)
    (hperm : kwargs₁.Perm kwargs₂)
    (hnd : (kwargs₁.map Prod.fst).Nodup)
    (h₁ : Workflow.createAndLinkNode wf ctx kwargs₁ = Except.ok (ctx₁, v₁))
    (h₂ : Workflow.createAndLinkNode wf ctx kwargs₂ = Except.ok (ctx₂, v₂)) :
    ∃ node₁ node₂,
      ctx₁.compilation_state = some ⟨st.nodes ++ [node₁]⟩
      ∧ ctx₂.compilation_state = some ⟨st.nodes ++ [node₂]⟩
      ∧ node₁.bindings = node₂.bindings
      ∧ node₁.bindings.Sorted (fun a b => strLe a.var b.var = true)
      ∧ (∀ x, x ∈ node₁.upstream_nodes ↔ x ∈ node₂.upstream_nodes) := by
  obtain ⟨bs₁, hm₁, _, hctx₁, _⟩ :=
    createAndLinkNode_ok_inv wf ctx st kwargs₁ ctx₁ v₁ hc h₁
  obtain ⟨bs₂, hm₂, _, hctx₂, _⟩ :=
    createAndLinkNode_ok_inv wf ctx st kwargs₂ ctx₂ v₂ hc h₂
  have hfun : linkInputBinding kwargs₁ = linkInputBinding kwargs₂ := by
    funext k
    unfold linkInputBinding
    rw [lookup_eq_of_perm hperm hnd k]
  have hbs : bs₁ = bs₂ := by
    rw [hfun] at hm₁
    rw [hm₁] at hm₂
    cases hm₂
    rfl
  refine ⟨linkNode wf st kwargs₁ bs₁, linkNode wf st kwargs₂ bs₂,
    by rw [hctx₁]; rfl, by rw [hctx₂]; rfl, ?_, ?_, ?_⟩
  · show List.insertionSort (fun a b => strLe a.var b.var = true) bs₁
      = List.insertionSort (fun a b => strLe a.var b.var = true) bs₂
    rw [hbs]
  · exact List.sorted_insertionSort (fun a b => strLe a.var b.var = true) bs₁
  · intro x
    show x ∈ (linkUpstream kwargs₁).dedup ↔ x ∈ (linkUpstream kwargs₂).dedup
    rw [List.mem_dedup, List.mem_dedup]
    unfold linkUpstream
    exact (hperm.filterMap _).mem_iff

/-- C7 witness: linking `wfK2` with its two keyword arguments given in both
orders produces equal, sorted binding lists and the same upstream set. -/
theorem C7_binding_order_witness :
    ∃ node₁ node₂,
      ctxAfterK2.compilation_state = some ⟨[] ++ [node₁]⟩
      ∧ ctxAfterK2.compilation_state = some ⟨[] ++ [node₂]⟩
      ∧ node₁.bindings = node₂.bindings
      ∧ node₁.bindings.Sorted (fun a b => strLe a.var b.var = true)
      ∧ (∀ x, x ∈ node₁.upstream_nodes ↔ x ∈ node₂.upstream_nodes) :=
  C7_binding_order wfK2 ctxComp0 ⟨[]⟩
    [("a", Val.native 1), ("b", Val.native 2)]
    [("b", Val.native 2), ("a", Val.native 1)]
    ctxAfterK2 ctxAfterK2 valK2 valK2 rfl
    (List.Perm.swap ("b", Val.native 2) ("a", Val.native 1) [])
    (by decide) rfl rfl

/-! ## C5 -/

theorem compile_err_of (wf : WorkflowDef) (body : WfBody)
    (kwargs : List (String × Val)) (ctx : FlyteContext) (e : WfError)
    (h : compileBindings wf.outputs (Workflow.traceOutput wf body kwargs ctx)
      = Except.error e) :
    Workflow.compile wf body kwargs ctx = Except.error e := by
  unfold Workflow.compile
  rw [h]
  rfl

theorem compileBindings_single_cond (o : String) :
    compileBindings [o] Val.condSection
      = Except.error WfError.unresolvedBranch := rfl

theorem compileMultiBinding_ok_of_atom (o : String) (x : Val)
    (hx : x.atomOk = true) : ∃ b, compileMultiBinding (o, x) = Except.ok b := by
  cases hv : x with
  | condSection => rw [hv] at hx; simp [Val.atomOk] at hx
  | native n => exact ⟨⟨o, BindingData.lit (Literal.mk n)⟩,
      by simp [compileMultiBinding, binding_from_python_std, bindingDataOfVal, Except.map]⟩
  | promise p =>
    obtain ⟨d, hd⟩ := atomOk_bindingData (Val.promise p) (by rw [← hv]; exact hx)
    exact ⟨⟨o, d⟩,
      by simp [compileMultiBinding, binding_from_python_std, hd, Except.map]⟩
  | globalRef g => exact ⟨⟨o, BindingData.ref GLOBAL_INPUT_NODE_ID g⟩,
      by simp [compileMultiBinding, binding_from_python_std, bindingDataOfVal, Except.map]⟩
  | pynone => rw [hv] at hx; simp [Val.atomOk] at hx
  | tup xs => rw [hv] at hx; simp [Val.atomOk] at hx

theorem mapExcept_multi_cond (os : List String) (xs : List Val)
    (hmix : ∀ x ∈ xs, x.atomOk = true ∨ x = Val.condSection)
    (hcond : Val.condSection ∈ xs)
    (hlen : os.length = xs.length) :
    mapExcept compileMultiBinding (os.zip xs)
      = Except.error WfError.condInOutput := by
  induction os generalizing xs with
  | nil =>
    cases xs with
    | nil => cases hcond
    | cons x xs' => simp at hlen
  | cons o os ih =>
    cases xs with
    | nil => cases hcond
    | cons x xs' =>
      rw [List.zip_cons_cons]
      rcases hmix x (List.mem_cons_self _ _) with hx | hx
      · have hxne : x ≠ Val.condSection := by
          intro he
          rw [he] at hx
          simp [Val.atomOk] at hx
        have hcond' : Val.condSection ∈ xs' := by
          cases List.mem_cons.mp hcond with
          | inl he => exact absurd he.symm hxne
          | inr ht => exact ht
        obtain ⟨b, hb⟩ := compileMultiBinding_ok_of_atom o x hx
        have hih := ih xs' (fun y hy => hmix y (List.mem_cons_of_mem _ hy))
          hcond' (by simpa using hlen)
        simp [mapExcept, hb, hih, bind, Except.bind]
      · rw [hx]
        simp [mapExcept, compileMultiBinding, bind, Except.bind]

/-- C5: unresolved-branch rejection — if the traced return value is an
unresolved branch construct (`ConditionalSection`), `compile()` fails with
a fatal error: with one declared output the branch construct is rejected by
the binding constructor; with multiple declared outputs, if any position of
the returned (correctly sized) aggregate is an unresolved branch construct
(the others being ordinary values), the per-element check fails. -/
theorem C5_unresolved_branch (wf : WorkflowDef) (body : WfBody)
    (kwargs : List (String × Val)) (ctx : FlyteContext) :
    (wf.outputs.length = 1 →
      Workflow.traceOutput wf body kwargs ctx = Val.condSection →
      Workflow.compile wf body kwargs ctx
        = Except.error WfError.unresolvedBranch)
    ∧ (1 < wf.outputs.length →
        ∀ xs, Workflow.traceOutput wf body kwargs ctx = Val.tup xs →
          xs.length = wf.outputs.length →
          (∀ x ∈ xs, x.atomOk = true ∨ x = Val.condSection) →
          Val.condSection ∈ xs →
          Workflow.compile wf body kwargs ctx
            = Except.error WfError.condInOutput) := by
  constructor
  · intro h1 hcond
    obtain ⟨o, ho⟩ := List.length_eq_one.mp h1
    apply compile_err_of
    rw [ho, hcond]
    exact compileBindings_single_cond o
  · intro hgt xs hxs hlen hmix hcond
    apply compile_err_of
    match hos : wf.outputs with
    | [] => rw [hos] at hgt; simp at hgt
    | [o] => rw [hos] at hgt; simp at hgt
    | o1 :: o2 :: rest =>
      rw [hxs]
      rw [show compileBindings (o1 :: o2 :: rest) (Val.tup xs)
          = if (o1 :: o2 :: rest).length ≠ xs.length then
              Except.error (WfError.multiOutputLenMismatch
                (o1 :: o2 :: rest).length xs.length)
            else
              Except.bind (mapExcept compileMultiBinding ((o1 :: o2 :: rest).zip xs))
                (fun bindings => Except.ok (bindings, CompileRet.tuple bindings))
        from rfl]
      rw [hos] at hlen
      rw [if_neg (not_not_intro hlen.symm)]
      rw [mapExcept_multi_cond (o1 :: o2 :: rest) xs hmix hcond hlen.symm]
      rfl

/-- C5 witness: a two-output workflow returning a pair whose second
component is an unresolved conditional fails to compile. -/
theorem C5_unresolved_branch_witness :
    Workflow.compile wfK2 (bodyConstV (Val.tup [Val.native 1, Val.condSection]))
        [] ctxPlain
      = Except.error WfError.condInOutput :=
  (C5_unresolved_branch wfK2 (bodyConstV (Val.tup [Val.native 1, Val.condSection]))
      [] ctxPlain).2 (by decide)
    [Val.native 1, Val.condSection] rfl (by decide)
    (by
      intro x hx
      rcases List.mem_cons.mp hx with h | h
      · rw [h]
        exact Or.inl rfl
      · rcases List.mem_cons.mp h with h2 | h2
        · rw [h2]
          exact Or.inr rfl
        · cases h2)
    (List.mem_cons_of_mem _ (List.mem_cons_self _ _))

/-! ## C8 -/

theorem checkLocal_promise (wf : WorkflowDef) (kwargs : List (String × Val))
    (hdecl : ∀ kv ∈ kwargs, kv.1 ∈ wf.inputs)
    (hprom : ∃ kv ∈ kwargs, (kv.2).isPromise = true) :
    ∃ k, (∃ v, (k, v) ∈ kwargs ∧ v.isPromise = true)
      ∧ checkLocalRootKwargs wf kwargs
          = Except.error (WfError.promiseForNative k) := by
  induction kwargs with
  | nil => obtain ⟨kv, hkv, _⟩ := hprom; cases hkv
  | cons kv rest ih =>
    obtain ⟨k, v⟩ := kv
    have hin : wf.inputs.contains k = true :=
      (contains_iff_mem wf.inputs k).mpr (hdecl (k, v) (List.mem_cons_self _ _))
    cases hp : v.isPromise with
    | true =>
      refine ⟨k, ⟨v, List.mem_cons_self _ _, hp⟩, ?_⟩
      unfold checkLocalRootKwargs
      rw [if_neg (not_not_intro hin), if_pos hp]
    | false =>
      have hprom' : ∃ kv ∈ rest, (kv.2).isPromise = true := by
        obtain ⟨kv', hkv', hp'⟩ := hprom
        cases List.mem_cons.mp hkv' with
        | inl he =>
          rw [he] at hp'
          rw [hp'] at hp
          cases hp
        | inr ht => exact ⟨kv', ht, hp'⟩
      obtain ⟨k', hk', hchk⟩ := ih
        (fun kv' hkv' => hdecl kv' (List.mem_cons_of_mem _ hkv')) hprom'
      refine ⟨k', ?_, ?_⟩
      · obtain ⟨v', hv', hvp⟩ := hk'
        exact ⟨v', List.mem_cons_of_mem _ hv', hvp⟩
      · unfold checkLocalRootKwargs
        rw [if_neg (not_not_intro hin), if_neg (by rw [hp]; exact Bool.false_ne_true)]
        exact hchk

theorem checkLocal_extra (wf : WorkflowDef) (kwargs : List (String × Val))
    (hnoprom : ∀ kv ∈ kwargs, (kv.2).isPromise = false)
    (hextra : ∃ kv ∈ kwargs, kv.1 ∉ wf.inputs) :
    ∃ k, k ∉ wf.inputs ∧ (∃ v, (k, v) ∈ kwargs)
      ∧ checkLocalRootKwargs wf kwargs
          = Except.error (WfError.unexpectedKwarg k) := by
  induction kwargs with
  | nil => obtain ⟨kv, hkv, _⟩ := hextra; cases hkv
  | cons kv rest ih =>
    obtain ⟨k, v⟩ := kv
    by_cases hin : k ∈ wf.inputs
    · have hinb : wf.inputs.contains k = true := (contains_iff_mem wf.inputs k).mpr hin
      have hextra' : ∃ kv ∈ rest, kv.1 ∉ wf.inputs := by
        obtain ⟨kv', hkv', hn'⟩ := hextra
        cases List.mem_cons.mp hkv' with
        | inl he => exact absurd (by rw [he]; exact hin) hn'
        | inr ht => exact ⟨kv', ht, hn'⟩
      obtain ⟨k', hk'n, hk'v, hchk⟩ := ih
        (fun kv' hkv' => hnoprom kv' (List.mem_cons_of_mem _ hkv')) hextra'
      refine ⟨k', hk'n, ?_, ?_⟩
      · obtain ⟨v', hv'⟩ := hk'v
        exact ⟨v', List.mem_cons_of_mem _ hv'⟩
      · unfold checkLocalRootKwargs
        have hnp : v.isPromise = false := hnoprom (k, v) (List.mem_cons_self _ _)
        rw [if_neg (not_not_intro hinb),
          if_neg (by rw [hnp]; exact Bool.false_ne_true)]
        exact hchk
    · refine ⟨k, hin, ⟨v, List.mem_cons_self _ _⟩, ?_⟩
      unfold checkLocalRootKwargs
      have hinb : ¬ wf.inputs.contains k = true := by
        rw [contains_iff_mem]
        exact hin
      rw [if_pos hinb]

theorem localRootConvert_native (result v' : Val)
    (h : localRootConvert result = Except.ok v') : v'.nativeOnly = true := by
  cases result with
  | pynone => cases h; rfl
  | native n => cases h
  | globalRef g => cases h
  | condSection => cases h
  | promise p =>
    have h' : (match p.val with
        | PromiseVal.lit l => Except.ok (Val.native (to_python_value l))
        | PromiseVal.ref _ _ =>
          (Except.error WfError.typeError : Except WfError Val))
        = Except.ok v' := h
    cases hpv : p.val with
    | lit l =>
      rw [hpv] at h'
      cases h'
      rfl
    | ref a b =>
      rw [hpv] at h'
      cases h'
  | tup xs =>
    cases xs with
    | nil => cases h
    | cons x xs' =>
      have h' : (if ¬ x.isPromise = true then
            (Except.error WfError.shouldBePromises : Except WfError Val)
          else
            Except.bind (mapExcept promiseToNative (x :: xs'))
              (fun ns => Except.ok (Val.tup (ns.map Val.native))))
          = Except.ok v' := h
      by_cases hx : x.isPromise = true
      · rw [if_neg (not_not_intro hx)] at h'
        cases hm : mapExcept promiseToNative (x :: xs') with
        | error e => rw [hm] at h'; cases h'
        | ok ns =>
          rw [hm] at h'
          simp only [Except.bind] at h'
          cases h'
          simp only [Val.nativeOnly, List.all_eq_true]
          intro y hy
          obtain ⟨n, _, hyn⟩ := List.mem_map.mp hy
          rw [← hyn]
      · rw [if_pos hx] at h'
        cases h'

theorem bind_ok_inv {α β : Type} (e : Except WfError α)
    (f : α → Except WfError β) (b : β)
    (h : Except.bind e f = Except.ok b) :
    ∃ a, e = Except.ok a ∧ f a = Except.ok b := by
  cases e with
  | error e' => cases h
  | ok a => exact ⟨a, rfl, h⟩

theorem call_toplevel_eq (wf : WorkflowDef) (body : WfBody)
    (kwargs : List (String × Val)) (ctx : FlyteContext)
    (hcomp : ctx.compilation_state = none)
    (hexec : ctx.execution_state ≠ some ExecMode.local_workflow_execution) :
    Workflow.call wf body [] kwargs ctx = localRootBranch wf body kwargs ctx := by
  unfold Workflow.call
  rw [if_neg (by simp : ¬ (([] : List Val).length > 0))]
  rw [if_neg (show ¬ (ctx.compilation_state.isSome = true) by rw [hcomp]; simp)]
  rw [if_neg hexec]

theorem localRootBranch_check_err (wf : WorkflowDef) (body : WfBody)
    (kwargs : List (String × Val)) (ctx : FlyteContext) (e : WfError)
    (hchk : checkLocalRootKwargs wf kwargs = Except.error e) :
    localRootBranch wf body kwargs ctx = Except.error e := by
  unfold localRootBranch
  rw [hchk]
  rfl

theorem localRootBranch_ok_inv (wf : WorkflowDef) (body : WfBody)
    (kwargs : List (String × Val)) (ctx ctx' : FlyteContext) (v : Val)
    (h : localRootBranch wf body kwargs ctx = Except.ok (ctx', v)) :
    ∃ result, localRootConvert result = Except.ok v ∧ ctx' = ctx := by
  unfold localRootBranch at h
  obtain ⟨u, hu, h⟩ := bind_ok_inv _ _ _ h
  obtain ⟨p, hp, h⟩ := bind_ok_inv _ _ _ h
  obtain ⟨ctxe, result⟩ := p
  obtain ⟨g, hg, h⟩ := bind_ok_inv _ _ _ h
  cases g with
  | false => rw [if_neg Bool.false_ne_true] at h; cases h
  | true =>
    rw [if_pos rfl] at h
    obtain ⟨v2, hv2, h⟩ := bind_ok_inv _ _ _ h
    cases h
    exact ⟨result, hv2, rfl⟩

/-- C8: local-root dispatch — with no compilation context and no
local-execution marker active: positional arguments are rejected with the
usage error; if every keyword name is declared but some value is a
`Promise`, the call is rejected with the promise-for-native usage error; if
no value is a `Promise` but some keyword name is undeclared, the call is
rejected with the unexpected-keyword usage error; and any value a
successful top-level call returns is made only of concrete native data
(every output promise was converted back before returning). -/
theorem C8_local_root_dispatch (wf : WorkflowDef) (body : WfBody)
    (args : List Val) (kwargs : List (String × Val)) (ctx : FlyteContext)
    (hcomp : ctx.compilation_state = none)
    (hexec : ctx.execution_state ≠ some ExecMode.local_workflow_execution) :
    (args ≠ [] →
      Workflow.call wf body args kwargs ctx = Except.error WfError.positionalArgs)
    ∧ ((∀ kv ∈ kwargs, kv.1 ∈ wf.inputs) →
        (∃ kv ∈ kwargs, (kv.2).isPromise = true) →
        ∃ k, (∃ v, (k, v) ∈ kwargs ∧ v.isPromise = true)
          ∧ Workflow.call wf body [] kwargs ctx
              = Except.error (WfError.promiseForNative k))
    ∧ ((∀ kv ∈ kwargs, (kv.2).isPromise = false) →
        (∃ kv ∈ kwargs, kv.1 ∉ wf.inputs) →
        ∃ k, k ∉ wf.inputs ∧ (∃ v, (k, v) ∈ kwargs)
          ∧ Workflow.call wf body [] kwargs ctx
              = Except.error (WfError.unexpectedKwarg k))
    ∧ (∀ ctx' v, Workflow.call wf body [] kwargs ctx = Except.ok (ctx', v) →
        v.nativeOnly = true) := by
  refine ⟨?_, ?_, ?_, ?_⟩
  · intro hargs
    unfold Workflow.call
    rw [if_pos (List.length_pos.mpr hargs)]
  · intro hdecl hprom
    obtain ⟨k, hk, hchk⟩ := checkLocal_promise wf kwargs hdecl hprom
    exact ⟨k, hk, (call_toplevel_eq wf body kwargs ctx hcomp hexec).trans
      (localRootBranch_check_err wf body kwargs ctx _ hchk)⟩
  · intro hnoprom hextra
    obtain ⟨k, hkn, hkv, hchk⟩ := checkLocal_extra wf kwargs hnoprom hextra
    exact ⟨k, hkn, hkv, (call_toplevel_eq wf body kwargs ctx hcomp hexec).trans
      (localRootBranch_check_err wf body kwargs ctx _ hchk)⟩
  · intro ctx' v hok
    rw [call_toplevel_eq wf body kwargs ctx hcomp hexec] at hok
    obtain ⟨result, hcv, _⟩ := localRootBranch_ok_inv wf body kwargs ctx ctx' v hok
    exact localRootConvert_native result v hcv

/-- C8 witness: a plain top-level call of `wfK1` with a native argument
returns a value made only of native data. -/
theorem C8_local_root_dispatch_witness : (Val.native 7).nativeOnly = true :=
  (C8_local_root_dispatch wfK1 bodyEcho [] [("x", Val.native 7)] ctxPlain rfl
    (by decide)).2.2.2 ctxPlain (Val.native 7) rfl

end Flytekit
